import Mathlib

/-!
Verification of the categorization, aggregation and month-scoped reporting
engine of the expense/budget tracker (files
`expense_budget_tracker_final.py` and
`expense_budget_tracker_final-6_patched-1.py`).

Modelling conventions (shallow embedding):
* Python strings are lists of characters (`Str`); Python's `str.strip`,
  `str.lower`, `str.split(",")`, `str.replace`, `in` and `startswith` are
  given as executable character-list functions below.
* Python floats are modelled as exact rationals; `float(...)` is modelled
  by a decimal parser covering sign, integer and fractional digit runs
  (the numeric forms the tracker reads and writes), and `str.isdigit` as
  the decimal-digit test.
* Python dicts are insertion-ordered association lists with unique keys;
  `d[k] = v`, `d.get(k)`, `d.pop(k)` are `dictSet`, `dictGet`, `dictErase`.
* Interactive `input()` values are plain arguments; console output other
  than the computed report data is dropped; `None` results are `Option`.
-/

namespace BudgetTracker

/-- A Python string. -/
abbrev Str := List Char

/-- Whitespace test backing the model of Python `str.strip`. -/
def wsp (c : Char) : Bool := c.isWhitespace

/-- Drop trailing whitespace (the right half of `str.strip()`). -/
def rstripChars (l : Str) : Str := (l.reverse.dropWhile wsp).reverse

/-- Model of Python `str.strip()`: drop whitespace from both ends. -/
def stripChars (l : Str) : Str := rstripChars (l.dropWhile wsp)

/-- Model of Python `str.lower()`. -/
def lowerChars (l : Str) : Str := l.map Char.toLower

/-- Model of Python `s.replace(" ", "")`. -/
def removeSpaces (l : Str) : Str := l.filter (fun c => c != ' ')

/-- Model of Python `s.split(sep)` for a one-character separator. -/
def splitOnSep (sep : Char) : Str → List Str
  | [] => [[]]
  | c :: rest =>
    if c = sep then [] :: splitOnSep sep rest
    else
      match splitOnSep sep rest with
      | [] => [[c]]
      | p :: ps => (c :: p) :: ps

/-- Model of Python `s.split(",")`. -/
def splitOnComma (l : Str) : List Str := splitOnSep ',' l

/-- Model of Python `s.startswith(p)`. -/
def pyStartswith : Str → Str → Bool
  | [], _ => true
  | _ :: _, [] => false
  | p :: ps, c :: cs => p == c && pyStartswith ps cs

/-- Model of the Python substring test `needle in hay`. -/
def pyIn (needle : Str) : Str → Bool
  | [] => needle.isEmpty
  | c :: rest => pyStartswith needle (c :: rest) || pyIn needle rest

/-- Model of Python `str.isdigit` (nonempty run of decimal digits). -/
def pyIsdigit (l : Str) : Bool := !l.isEmpty && l.all Char.isDigit

/-- Numeric value of a run of decimal digits. -/
def digitsToNat (l : Str) : Nat := l.foldl (fun acc c => 10 * acc + (c.toNat - 48)) 0

/-- Decimal-number parser modelling Python `float(...)` on the numeric
forms relevant here: integer digits with an optional fractional part. -/
def parseDecimal (s : Str) : Option ℚ :=
  match splitOnSep '.' s with
  | [ip] => if pyIsdigit ip then some (digitsToNat ip : ℚ) else none
  | [ip, fp] =>
    if (ip.all Char.isDigit && fp.all Char.isDigit) && !(ip.isEmpty && fp.isEmpty) then
      some ((digitsToNat ip : ℚ) + (digitsToNat fp : ℚ) / (10 : ℚ) ^ fp.length)
    else none
  | _ => none

/-- `safe_float`: strip, turn decimal commas into periods, then parse;
invalid input yields `none` instead of raising. -/
def safe_float (text : Str) : Option ℚ :=
  let s := (stripChars text).map (fun c => if c = ',' then '.' else c)
  match s with
  | '-' :: rest => (parseDecimal rest).map (fun q => -q)
  | '+' :: rest => parseDecimal rest
  | _ => parseDecimal s

/-- `extract_month`: the first seven characters of the trimmed date string,
valid only when the length is at least 7, position 4 is a dash and the
year/month slices are digit runs.  No 01–12 range check. -/
def extract_month (date_str : Str) : Option Str :=
  let s := stripChars date_str
  if s.length < 7 then none
  else if 5 ≤ s.length ∧ s[4]? ≠ some '-' then none
  else if !pyIsdigit (s.take 4) || !pyIsdigit ((s.drop 5).take 2) then none
  else some (s.take 7)

/-- `DEFAULT_CATEGORY`. -/
def DEFAULT_CATEGORY : Str := "Other".data

/-- The built-in `CATEGORY_RULES` table. -/
def CATEGORY_RULES : List (Str × List Str) :=
  [("Housing".data, ["rent".data, "mortgage".data, "utility".data, "utilities".data]),
   ("Transport".data, ["uber".data, "taxi".data, "bus".data, "train".data, "metro".data,
      "tram".data]),
   ("Food".data, ["coffee".data, "cafe".data, "restaurant".data, "grocery".data,
      "supermarket".data, "food".data]),
   ("Entertainment".data, ["cinema".data, "movie".data, "concert".data, "subscription".data,
      "netflix".data, "spotify".data, "game".data])]

/-- Whether some keyword of a rule occurs in the (lowercased) text. -/
def ruleHits (text : Str) (rule : Str × List Str) : Bool :=
  rule.2.any (fun kw => pyIn kw text)

/-- The rule scan of `categorize_expense`: first rule with a matching
keyword wins. -/
def categorize_scan : List (Str × List Str) → Str → Str
  | [], _ => DEFAULT_CATEGORY
  | (category, keywords) :: rest, text =>
    if keywords.any (fun kw => pyIn kw text) then category
    else categorize_scan rest text

/-- `categorize_expense`: `(description or "").lower()`, then scan the
rules in stored order. -/
def categorize_expense (rules : List (Str × List Str)) (description : Option Str) : Str :=
  categorize_scan rules (lowerChars (description.getD []))

/-- One stored expense record `[date, desc, amount, category, month]`. -/
structure ExpenseRecord where
  date : Str
  desc : Str
  amount : ℚ
  category : Str
  month : Str
deriving DecidableEq

section Dict

variable {α : Type} [DecidableEq α] {β : Type}

/-- Python `d.get(k)` on an association list. -/
def dictGet : List (α × β) → α → Option β
  | [], _ => none
  | (k', v) :: rest, k => if k' = k then some v else dictGet rest k

/-- Python `d.get(k, v₀)`. -/
def dictGetD (d : List (α × β)) (k : α) (v₀ : β) : β := (dictGet d k).getD v₀

/-- Python `d[k] = v`: update in place, or append a new key. -/
def dictSet : List (α × β) → α → β → List (α × β)
  | [], k, v => [(k, v)]
  | (k', v') :: rest, k, v =>
    if k' = k then (k', v) :: rest else (k', v') :: dictSet rest k v

/-- Python `d.pop(k)` (the removal part). -/
def dictErase : List (α × β) → α → List (α × β)
  | [], _ => []
  | (k', v') :: rest, k => if k' = k then rest else (k', v') :: dictErase rest k

/-- Python `d.keys()`. -/
def dictKeys (d : List (α × β)) : List α := d.map Prod.fst

end Dict

/-- `calculate_totals`: per-category sums of the given records. -/
def calculate_totals (records : List ExpenseRecord) : List (Str × ℚ) :=
  records.foldl
    (fun totals r => dictSet totals r.category (dictGetD totals r.category 0 + r.amount)) []

/-- Boolean case-insensitive lexicographic comparison of strings. -/
def lexLeB : Str → Str → Bool
  | [], _ => true
  | _ :: _, [] => false
  | a :: xs, b :: ys => if a = b then lexLeB xs ys else decide (a < b)

/-- The sort order of `sorted(cats, key=str.lower)`. -/
def catLe (a b : Str) : Prop := lexLeB (lowerChars a) (lowerChars b) = true

instance : DecidableRel catLe := fun _ _ => inferInstanceAs (Decidable (_ = true))

/-- `all_categories_from_data_and_budgets`: the union of the spend-total
keys and the budget keys, sorted case-insensitively. -/
def all_categories_from_data_and_budgets (totals month_budgets : List (Str × ℚ)) : List Str :=
  List.insertionSort catLe ((dictKeys totals ++ dictKeys month_budgets).dedup)

/-- Status strings of the monthly summary. -/
def NO_BUDGET : Str := "NO BUDGET".data

/-- Status string for a category within its cap. -/
def OK_STATUS : Str := "OK".data

/-- Status string for an exceeded cap. -/
def BUDGET_EXCEEDED : Str := "BUDGET EXCEEDED".data

/-- One line of the monthly summary table. -/
structure SummaryRow where
  cat : Str
  budget : Option ℚ
  spent : ℚ
  status : Str
deriving DecidableEq

/-- The data computed by `show_monthly_summary`. -/
structure MonthlySummary where
  rows : List SummaryRow
  exceeded : List Str
  total_spent_all : ℚ
  total_budget_all : ℚ
deriving DecidableEq

/-- The per-category body of the summary loop. -/
def summaryRow (totals month_budgets : List (Str × ℚ)) (cat : Str) : SummaryRow :=
  let spent := dictGetD totals cat 0
  match dictGet month_budgets cat with
  | none => ⟨cat, none, spent, NO_BUDGET⟩
  | some b => ⟨cat, some b, spent, if 0 ≤ b - spent then OK_STATUS else BUDGET_EXCEEDED⟩

/-- `show_monthly_summary` on the selected month's records and budget map:
aborts (`none`) when the month has no expense records; otherwise tabulates
every category of the totals/budget union in case-insensitive alphabetical
order, with running totals and the list of exceeded categories. -/
def show_monthly_summary (records : List ExpenseRecord) (month_budgets : List (Str × ℚ)) :
    Option MonthlySummary :=
  if records.isEmpty then none
  else
    let totals := calculate_totals records
    let categories := all_categories_from_data_and_budgets totals month_budgets
    some ⟨categories.map (summaryRow totals month_budgets),
          categories.filter (fun c =>
            match dictGet month_budgets c with
            | some b => decide (b - dictGetD totals c 0 < 0)
            | none => false),
          (categories.map (fun c => dictGetD totals c 0)).sum,
          (categories.filterMap (dictGet month_budgets)).sum⟩

/-- Outcome of one CSV line in `load_expenses_csv`. -/
inductive RowOutcome where
  | blank
  | skippedRow
  | loadedRow (r : ExpenseRecord)
deriving DecidableEq

/-- The comma-split, field-stripped view of one CSV line. -/
def splitStrip (line : Str) : List Str := (splitOnComma (stripChars line)).map stripChars

/-- The per-line body of the `load_expenses_csv` loop. -/
def loadExpenseRow (rules : List (Str × List Str)) (line : Str) : RowOutcome :=
  let raw := stripChars line
  if raw.isEmpty then .blank
  else
    let parts := (splitOnComma raw).map stripChars
    if parts.length < 3 then .skippedRow
    else
      let date_str := parts.getD 0 []
      let desc := parts.getD 1 []
      match safe_float (parts.getD 2 []), extract_month date_str with
      | some amount_val, some month_val =>
        .loadedRow ⟨date_str, desc, amount_val, categorize_expense rules (some desc), month_val⟩
      | _, _ => .skippedRow

/-- The header-line detection of `load_expenses_csv`. -/
def isExpenseHeader (line : Str) : Bool :=
  let h := removeSpaces (lowerChars (stripChars line))
  pyStartswith ("date,".data) h && pyIn ("description".data) h && pyIn ("amount".data) h

/-- What `load_expenses_csv` accumulates: appended records plus the
loaded/skipped counters. -/
structure LoadOutcome where
  records : List ExpenseRecord
  loadedCount : Nat
  skippedCount : Nat
deriving DecidableEq

/-- One step of the `load_expenses_csv` fold. -/
def loadStep (rules : List (Str × List Str)) (acc : LoadOutcome) (line : Str) : LoadOutcome :=
  match loadExpenseRow rules line with
  | .blank => acc
  | .skippedRow => ⟨acc.records, acc.loadedCount, acc.skippedCount + 1⟩
  | .loadedRow r => ⟨acc.records ++ [r], acc.loadedCount + 1, acc.skippedCount⟩

/-- `load_expenses_csv` over the file's lines (the records returned are the
ones appended to the in-memory list). -/
def load_expenses_csv (rules : List (Str × List Str)) (lines : List Str) : LoadOutcome :=
  match lines with
  | [] => ⟨[], 0, 0⟩
  | l0 :: rest =>
    (if isExpenseHeader l0 then rest else l0 :: rest).foldl (loadStep rules) ⟨[], 0, 0⟩

/-- The save-time sanitization `desc.replace("\n", " ").replace("\r", " ")`. -/
def sanitizeDesc (d : Str) : Str :=
  d.map (fun c => if c = '\n' ∨ c = '\r' then ' ' else c)

/-- One data line written by `save_expenses_csv`; `showAmt` stands for
Python's float formatting of the amount. -/
def expenseRowLine (showAmt : ℚ → Str) (r : ExpenseRecord) : Str :=
  r.date ++ ',' :: (sanitizeDesc r.desc ++ ',' :: (showAmt r.amount ++ ',' :: r.category))

/-- The header line written by `save_expenses_csv`. -/
def EXPENSE_HEADER : Str := "date,description,amount,category".data

/-- `save_expenses_csv`: refuses an empty list, else writes the header and
one line per record. -/
def save_expenses_csv (showAmt : ℚ → Str) (es : List ExpenseRecord) : Option (List Str) :=
  if es.isEmpty then none
  else some (EXPENSE_HEADER :: es.map (expenseRowLine showAmt))

/-- `add_expense_interactive` (the state transition on the expense list). -/
def add_expense (rules : List (Str × List Str)) (dateIn descIn amountIn : Str)
    (es : List ExpenseRecord) : List ExpenseRecord :=
  let date_str := stripChars dateIn
  match extract_month date_str with
  | none => es
  | some month_val =>
    let desc := stripChars descIn
    match safe_float (stripChars amountIn) with
    | none => es
    | some amount_val =>
      es ++ [⟨date_str, desc, amount_val, categorize_expense rules (some desc), month_val⟩]

/-- The date block of `edit_expense_interactive`: an empty input keeps the
record, a bad date cancels (`none`), a good one updates date and month. -/
def edit_expense_dateStep (nd : Str) (r : ExpenseRecord) : Option ExpenseRecord :=
  if nd.isEmpty then some r
  else
    match extract_month nd with
    | none => none
    | some month_val => some { r with date := nd, month := month_val }

/-- The description block of `edit_expense_interactive`: a non-empty input
replaces the description and re-derives the category. -/
def edit_expense_descStep (rules : List (Str × List Str)) (ndesc : Str)
    (r : ExpenseRecord) : ExpenseRecord :=
  if ndesc.isEmpty then r
  else { r with desc := ndesc, category := categorize_expense rules (some ndesc) }

/-- The amount block of `edit_expense_interactive`: a bad amount cancels
only this block, leaving the record as the earlier blocks made it. -/
def edit_expense_amountStep (na : Str) (r : ExpenseRecord) : ExpenseRecord :=
  if na.isEmpty then r
  else
    match safe_float na with
    | none => r
    | some amount_val => { r with amount := amount_val }

/-- The in-place record edit of `edit_expense_interactive`: date first
(cancelling before any change on a bad date), then description, then
amount (cancelling on a bad amount only the amount update). -/
def edit_expense (rules : List (Str × List Str)) (newDateIn newDescIn newAmountIn : Str)
    (r : ExpenseRecord) : ExpenseRecord :=
  match edit_expense_dateStep (stripChars newDateIn) r with
  | none => r
  | some r1 =>
    edit_expense_amountStep (stripChars newAmountIn)
      (edit_expense_descStep rules (stripChars newDescIn) r1)

/-- The expense part of the rename cascade in `edit_category_interactive`. -/
def rename_in_expenses (oldCat newCat : Str) (es : List ExpenseRecord) : List ExpenseRecord :=
  es.map (fun r => if r.category = oldCat then { r with category := newCat } else r)

/-- The budget part of the rename cascade for one month's map: pop the old
key; on a destination collision keep the existing value and flag a warning,
else move the value under the new key. -/
def rename_in_month_budgets (oldCat newCat : Str) (b : List (Str × ℚ)) :
    List (Str × ℚ) × Bool :=
  match dictGet b oldCat with
  | none => (b, false)
  | some old_value =>
    let b1 := dictErase b oldCat
    match dictGet b1 newCat with
    | some _ => (b1, true)
    | none => (dictSet b1 newCat old_value, false)

/-- The full rename cascade of `edit_category_interactive` (run only when
the name actually changed); the third component lists the months that got
a collision warning. -/
def rename_category_cascade (oldCat newCat : Str) (es : List ExpenseRecord)
    (bbm : List (Str × List (Str × ℚ))) :
    List ExpenseRecord × List (Str × List (Str × ℚ)) × List Str :=
  if newCat = oldCat then (es, bbm, [])
  else
    (rename_in_expenses oldCat newCat es,
     bbm.map (fun mb => (mb.1, (rename_in_month_budgets oldCat newCat mb.2).1)),
     (bbm.filter (fun mb => (rename_in_month_budgets oldCat newCat mb.2).2)).map Prod.fst)

/-- Round-half-to-even (the tie rule of Python's `round`). -/
def roundHalfEven (x : ℚ) : ℤ :=
  let f := x.floor
  let frac := x - (f : ℚ)
  if frac < 1/2 then f
  else if 1/2 < frac then f + 1
  else if 2 ∣ f then f else f + 1

/-- Python `round(x, 2)`. -/
def round2 (x : ℚ) : ℚ := (roundHalfEven (x * 100) : ℚ) / 100

/-- The mutation step of `edit_budget_interactive` on the selected month's
budget map, for the entry `(oldCat, oldValue)` picked from the listing:
empty inputs keep the old category/value, a bad amount cancels, and on a
category change the old key is deleted and the value stored under the new
key. -/
def edit_budget (month_budgets : List (Str × ℚ)) (oldCat : Str) (oldValue : ℚ)
    (newCatIn newAmountIn : Str) : Option (List (Str × ℚ)) :=
  let nc := stripChars newCatIn
  let new_cat := if nc.isEmpty then oldCat else nc
  let na := stripChars newAmountIn
  let newValue? := if na.isEmpty then some oldValue else (safe_float na).map round2
  match newValue? with
  | none => none
  | some new_value =>
    let b1 := if new_cat ≠ oldCat then dictErase month_budgets oldCat else month_budgets
    some (dictSet b1 new_cat new_value)

/-- One attempt of the inner loop of `add_budget_interactive`: `none` when
the user cancels (empty month or category), the month is malformed, or the
amount is invalid — in each case the budget maps stay untouched. -/
def add_budget (bbm : List (Str × List (Str × ℚ))) (monthIn catIn amountIn : Str) :
    Option (List (Str × List (Str × ℚ))) :=
  let m0 := stripChars monthIn
  if m0.isEmpty then none
  else
    match extract_month m0 with
    | none => none
    | some month_val =>
      let cat := stripChars catIn
      if cat.isEmpty then none
      else
        match safe_float (stripChars amountIn) with
        | none => none
        | some amount_val =>
          some (dictSet bbm month_val
            (dictSet (dictGetD bbm month_val []) cat (round2 amount_val)))

/-- The keyword parsing of the category dialogs:
`[kw.strip().lower() for kw in s.split(",") if kw.strip()]`. -/
def parseKeywords (s : Str) : List Str :=
  ((splitOnComma s).filter (fun kw => !(stripChars kw).isEmpty)).map
    (fun kw => lowerChars (stripChars kw))

/-- `add_category_interactive`: `none` (the rule list untouched) on an empty
name, a duplicate name (case-insensitive), or an empty keyword list. -/
def add_category (rules : List (Str × List Str)) (categoryIn keywordsIn : Str) :
    Option (List (Str × List Str)) :=
  let category := stripChars categoryIn
  if category.isEmpty then none
  else if rules.any (fun r => lowerChars r.1 == lowerChars category) then none
  else
    let keywords := parseKeywords (stripChars keywordsIn)
    if keywords.isEmpty then none
    else some (rules ++ [(category, keywords)])

/-- The three keyword options of `edit_category_interactive` (its menu loop
re-prompts until one of these is chosen). -/
inductive KeywordChoice
  | keep
  | addKw
  | removeKw

/-- `edit_category_interactive` once the rule at `idx` is selected: rename
(a duplicate name cancels), keyword update (an empty parsed list cancels,
as does removing every keyword), then the rule update and — only on a name
change — the rename cascade over expenses and budgets. `none` means the
edit was cancelled with no state touched. -/
def edit_category (rules : List (Str × List Str)) (idx : Nat) (newCategoryIn : Str)
    (choice : KeywordChoice) (keywordsIn : Str) (es : List ExpenseRecord)
    (bbm : List (Str × List (Str × ℚ))) :
    Option (List (Str × List Str) × List ExpenseRecord × List (Str × List (Str × ℚ))) :=
  match rules[idx]? with
  | none => none
  | some rule =>
    let old_category := rule.1
    let old_keywords := rule.2
    let nc := stripChars newCategoryIn
    let new_category := if nc.isEmpty then old_category else nc
    if !nc.isEmpty && rules.any (fun r =>
        lowerChars r.1 == lowerChars nc && !(lowerChars r.1 == lowerChars old_category)) then
      none
    else
      match (match choice with
        | .keep => some old_keywords
        | .addKw =>
          let nks := parseKeywords (stripChars keywordsIn)
          if nks.isEmpty then none
          else
            some ((nks.foldl (fun p kw =>
              if p.2.contains kw then p else (p.1 ++ [kw], p.2 ++ [kw]))
              (old_keywords, old_keywords.map lowerChars)).1)
        | .removeKw =>
          let rks := parseKeywords (stripChars keywordsIn)
          if rks.isEmpty then none
          else
            let remove_set := rks.map lowerChars
            let nk := old_keywords.filter (fun kw => !remove_set.contains (lowerChars kw))
            if nk.isEmpty then none else some nk) with
      | none => none
      | some new_keywords =>
        let casc := rename_category_cascade old_category new_category es bbm
        some (rules.set idx (new_category, new_keywords), casc.1, casc.2.1)

/-- The reporting property of the monthly summary stated over the records
and the month's budget map (the body of claim C1). -/
def monthlySummarySpec (records : List ExpenseRecord) (month_budgets : List (Str × ℚ)) : Prop :=
  ∃ s, show_monthly_summary records month_budgets = some s ∧
    (s.rows.map SummaryRow.cat).Nodup ∧
    List.Sorted catLe (s.rows.map SummaryRow.cat) ∧
    (∀ c, c ∈ s.rows.map SummaryRow.cat ↔
      ((∃ r ∈ records, r.category = c) ∨ c ∈ dictKeys month_budgets)) ∧
    (∀ row ∈ s.rows,
      row.spent =
        ((records.filter (fun r => r.category == row.cat)).map ExpenseRecord.amount).sum ∧
      row.budget = dictGet month_budgets row.cat ∧
      row.status = (match dictGet month_budgets row.cat with
        | none => NO_BUDGET
        | some b => if b - row.spent < 0 then BUDGET_EXCEEDED else OK_STATUS)) ∧
    s.total_spent_all = (s.rows.map SummaryRow.spent).sum ∧
    s.total_budget_all = (s.rows.filterMap SummaryRow.budget).sum

/-- The rename-cascade property of claim C5, for a successful rename from
`oldCat` to a different `newCat`. -/
def renameSpec (oldCat newCat : Str) (es : List ExpenseRecord)
    (bbm : List (Str × List (Str × ℚ))) : Prop :=
  List.Forall₂ (fun r r' =>
      (r.category = oldCat → r' = { r with category := newCat }) ∧
      (r.category ≠ oldCat → r' = r))
    es (rename_category_cascade oldCat newCat es bbm).1 ∧
  List.Forall₂ (fun mb mb' =>
      mb'.1 = mb.1 ∧
      ((dictKeys mb.2).Nodup →
        (dictGet mb.2 oldCat = none → mb'.2 = mb.2) ∧
        (∀ v, dictGet mb.2 oldCat = some v →
          dictGet mb'.2 oldCat = none ∧
          (dictGet mb.2 newCat = none → dictGet mb'.2 newCat = some v) ∧
          (∀ w, dictGet mb.2 newCat = some w →
            dictGet mb'.2 newCat = some w ∧
              mb.1 ∈ (rename_category_cascade oldCat newCat es bbm).2.2) ∧
          (∀ k, k ≠ oldCat → k ≠ newCat → dictGet mb'.2 k = dictGet mb.2 k))))
    bbm (rename_category_cascade oldCat newCat es bbm).2.1

/-- Conditions under which one record survives the CSV round trip: fields
are comma-free and trim-stable, the description needs no newline
sanitization, the category is the classifier's verdict for the current
rules, and the amount's printed form parses back to the same value. -/
@[reducible] def c8Good (rules : List (Str × List Str)) (showAmt : ℚ → Str)
    (r : ExpenseRecord) : Prop :=
  stripChars r.date = r.date ∧ ',' ∉ r.date ∧ '\n' ∉ r.date ∧
  extract_month r.date = some r.month ∧
  stripChars r.desc = r.desc ∧ ',' ∉ r.desc ∧ '\n' ∉ r.desc ∧ '\r' ∉ r.desc ∧
  r.category = categorize_expense rules (some r.desc) ∧
  ',' ∉ showAmt r.amount ∧ '\n' ∉ showAmt r.amount ∧
  safe_float (showAmt r.amount) = some r.amount ∧
  '\n' ∉ r.category

/-- Two CSV lines agreeing on their first three comma-separated, stripped
fields — in particular two lines differing only in the category column. -/
@[reducible] def sameFirstThree (l1 l2 : Str) : Prop :=
  (splitStrip l1).take 3 = (splitStrip l2).take 3

/-- The month/date invariant of stored records (claim C9). -/
@[reducible] def monthInv (r : ExpenseRecord) : Prop := r.month = r.date.take 7

/-- Concrete inputs used by the witness of claim C1 (the spec's own
worked example: Food 50 + Transport 20 spent, Food 40 + Housing 100 caps). -/
def c1_records : List ExpenseRecord :=
  [⟨"2025-11-05".data, "grocery run".data, 50, "Food".data, "2025-11".data⟩,
   ⟨"2025-11-06".data, "bus ticket".data, 20, "Transport".data, "2025-11".data⟩]

/-- Budget map used by the witness of claim C1. -/
def c1_budgets : List (Str × ℚ) := [("Food".data, 40), ("Housing".data, 100)]

/-- Records used by the witness of claim C2 (no Food spend). -/
def c2_records : List ExpenseRecord :=
  [⟨"2025-11-03".data, "metro pass".data, 30, "Transport".data, "2025-11".data⟩]

/-- Budget map used by the witness of claim C2. -/
def c2_budgets : List (Str × ℚ) := [("Food".data, 40)]

/-- Expense list used by the witness of claim C5. -/
def c5_expenses : List ExpenseRecord :=
  [⟨"2025-11-05".data, "grocery run".data, 50, "Food".data, "2025-11".data⟩,
   ⟨"2025-11-07".data, "rent november".data, 900, "Housing".data, "2025-11".data⟩]

/-- Budgets-by-month map used by the witness of claim C5: one month with a
destination collision, one without. -/
def c5_budgets : List (Str × List (Str × ℚ)) :=
  [("2025-11".data, [("Food".data, 40), ("Meals".data, 70)]),
   ("2025-12".data, [("Food".data, 60)])]

/-- Record used by the counterexample of claim C7 and the witness of C9. -/
def c7_record : ExpenseRecord :=
  ⟨"2025-11-01".data, "rent".data, 10, "Housing".data, "2025-11".data⟩

/-- Record whose description contains a comma (claim C8 counterexample). -/
def c8_bad : List ExpenseRecord :=
  [⟨"2025-11-01".data, "a,b".data, 5, "Other".data, "2025-11".data⟩]

/-- Amount formatter standing in for Python float repr in claim C8. -/
def c8_showAmt : ℚ → Str := fun q => if q = 5 then "5.0".data else "7".data

/-- Comma-free record surviving the round trip (claim C8 witness). -/
def c8_goodRecord : ExpenseRecord :=
  ⟨"2025-11-02".data, "coffee beans".data, 7, "Food".data, "2025-11".data⟩

/-- First expense file of the claim C10 witness (category column Food/XYZ). -/
def c10_lines1 : List Str :=
  ["date,description,amount,category".data, "2025-11-01,coffee,5,Food".data,
   "2025-11-02,rent,8,XYZ".data]

/-- Second expense file of the claim C10 witness: same first three columns,
category column changed or dropped. -/
def c10_lines2 : List Str :=
  ["date,description,amount,category".data, "2025-11-01,coffee,5,Other".data,
   "2025-11-02,rent,8".data]

/-! ### Helper lemmas about `dropWhile` and stripping -/

theorem dropWhile_eq_self_of_head {p : Char → Bool} {l : Str}
    (h : ∀ c, l.head? = some c → p c = false) : l.dropWhile p = l := by
  cases l with
  | nil => rfl
  | cons a t => simp [List.dropWhile_cons, h a rfl]

theorem head?_dropWhile_not {p : Char → Bool} {l : Str} {c : Char}
    (h : (l.dropWhile p).head? = some c) : p c = false := by
  induction l with
  | nil => simp at h
  | cons a t ih =>
    rw [List.dropWhile_cons] at h
    by_cases hp : p a
    · rw [if_pos hp] at h; exact ih h
    · rw [if_neg hp] at h
      simp only [List.head?_cons, Option.some.injEq] at h
      subst h; simpa using hp

theorem dropWhile_dropWhile {p : Char → Bool} (l : Str) :
    (l.dropWhile p).dropWhile p = l.dropWhile p :=
  dropWhile_eq_self_of_head (fun _ hc => head?_dropWhile_not hc)

theorem length_dropWhile_le' (p : Char → Bool) (l : Str) :
    (l.dropWhile p).length ≤ l.length :=
  (List.dropWhile_sublist p).length_le

theorem dropWhile_eq_self_of_append {p : Char → Bool} {x y : Str}
    (h : (x ++ y).dropWhile p = x ++ y) : x.dropWhile p = x := by
  cases x with
  | nil => rfl
  | cons a t =>
    rw [List.cons_append, List.dropWhile_cons] at h
    by_cases hp : p a
    · rw [if_pos hp] at h
      have hle := length_dropWhile_le' p (t ++ y)
      have hlen := congrArg List.length h
      simp only [List.length_cons, List.length_append] at hle hlen
      omega
    · rw [List.dropWhile_cons, if_neg hp]

theorem head_not_of_dropWhile_eq_self {p : Char → Bool} {l : Str} {c : Char}
    (h : l.dropWhile p = l) (hc : l.head? = some c) : p c = false := by
  cases l with
  | nil => simp at hc
  | cons a t =>
    have hac : a = c := by simpa using hc
    rw [← hac]
    rw [List.dropWhile_cons] at h
    by_cases hp : p a
    · rw [if_pos hp] at h
      have hle := length_dropWhile_le' p t
      have hlen := congrArg List.length h
      simp only [List.length_cons] at hlen
      omega
    · simpa using hp

theorem stripChars_idem (l : Str) : stripChars (stripChars l) = stripChars l := by
  unfold stripChars rstripChars
  have hsplit : l.dropWhile wsp =
      ((l.dropWhile wsp).reverse.dropWhile wsp).reverse ++
        ((l.dropWhile wsp).reverse.takeWhile wsp).reverse := by
    conv_lhs => rw [← List.reverse_reverse (l.dropWhile wsp),
      ← List.takeWhile_append_dropWhile (p := wsp) (l := (l.dropWhile wsp).reverse)]
    rw [List.reverse_append]
  have hm : (((l.dropWhile wsp).reverse.dropWhile wsp).reverse : Str).dropWhile wsp =
      ((l.dropWhile wsp).reverse.dropWhile wsp).reverse := by
    apply dropWhile_eq_self_of_append (y := ((l.dropWhile wsp).reverse.takeWhile wsp).reverse)
    rw [← hsplit]
    exact dropWhile_dropWhile l
  rw [hm, List.reverse_reverse]
  rw [dropWhile_dropWhile]

theorem mem_of_mem_stripChars {c : Char} {l : Str} (h : c ∈ stripChars l) : c ∈ l := by
  unfold stripChars rstripChars at h
  rw [List.mem_reverse] at h
  have h1 := (List.dropWhile_sublist (l := (l.dropWhile wsp).reverse) wsp).mem h
  rw [List.mem_reverse] at h1
  exact (List.dropWhile_sublist wsp).mem h1

theorem dropWhile_eq_self_of_strip {l : Str} (h : stripChars l = l) :
    l.dropWhile wsp = l := by
  have hle1 := length_dropWhile_le' wsp l
  have hle2 := length_dropWhile_le' wsp (l.dropWhile wsp).reverse
  have hlen := congrArg List.length h
  unfold stripChars rstripChars at hlen
  simp only [List.length_reverse] at hlen hle2
  exact (List.dropWhile_sublist wsp).eq_of_length (by omega)

theorem reverse_dropWhile_eq_self_of_strip {l : Str} (h : stripChars l = l) :
    l.reverse.dropWhile wsp = l.reverse := by
  have h1 := dropWhile_eq_self_of_strip h
  unfold stripChars rstripChars at h
  rw [h1] at h
  conv_rhs => rw [← h]
  rw [List.reverse_reverse]

theorem stripChars_append_last {a b : Str} (ha : a ≠ [])
    (hhead : ∀ c, a.head? = some c → wsp c = false)
    (hlast : ∀ c, a.reverse.head? = some c → wsp c = false) :
    stripChars (a ++ b) = a ++ rstripChars b := by
  unfold stripChars rstripChars
  have h1 : (a ++ b).dropWhile wsp = a ++ b := by
    apply dropWhile_eq_self_of_head
    intro c hc
    cases a with
    | nil => exact absurd rfl ha
    | cons x t =>
      have hxc : x = c := by
        simpa using hc
      exact hxc ▸ hhead x rfl
  rw [h1, List.reverse_append, List.dropWhile_append]
  have h2 : a.reverse.dropWhile wsp = a.reverse :=
    dropWhile_eq_self_of_head hlast
  by_cases hb : (b.reverse.dropWhile wsp).isEmpty
  · rw [if_pos hb, h2]
    have hbe : b.reverse.dropWhile wsp = [] := by
      simpa using hb
    rw [hbe]
    simp
  · rw [if_neg hb, List.reverse_append, List.reverse_reverse]

/-! ### Helper lemmas about association lists -/

section DictLemmas

variable {α : Type} [DecidableEq α] {β : Type}

theorem dictGet_dictSet_self (d : List (α × β)) (k : α) (v : β) :
    dictGet (dictSet d k v) k = some v := by
  induction d with
  | nil => simp [dictSet, dictGet]
  | cons p rest ih =>
    obtain ⟨k0, v0⟩ := p
    by_cases h : k0 = k
    · simp [dictSet, dictGet, h]
    · simp [dictSet, dictGet, h, ih]

theorem dictGet_dictSet_ne (d : List (α × β)) {k k' : α} (v : β) (h : k' ≠ k) :
    dictGet (dictSet d k v) k' = dictGet d k' := by
  induction d with
  | nil =>
    have : ¬k = k' := fun he => h he.symm
    simp [dictSet, dictGet, this]
  | cons p rest ih =>
    obtain ⟨k0, v0⟩ := p
    by_cases hp : k0 = k
    · subst hp
      have : ¬k0 = k' := fun he => h he.symm
      simp [dictSet, dictGet, this]
    · by_cases hp' : k0 = k'
      · simp [dictSet, dictGet, hp, hp', h]
      · simp [dictSet, dictGet, hp, hp', ih]

theorem mem_dictKeys_dictSet (d : List (α × β)) (k c : α) (v : β) :
    c ∈ dictKeys (dictSet d k v) ↔ c = k ∨ c ∈ dictKeys d := by
  induction d with
  | nil => simp [dictSet, dictKeys, eq_comm]
  | cons p rest ih =>
    obtain ⟨k0, v0⟩ := p
    by_cases hp : k0 = k
    · subst hp
      have hset : dictSet ((k0, v0) :: rest) k0 v = (k0, v) :: rest := by
        simp [dictSet]
      rw [hset]
      simp only [dictKeys, List.map_cons, List.mem_cons]
      tauto
    · have hset : dictSet ((k0, v0) :: rest) k v = (k0, v0) :: dictSet rest k v := by
        simp [dictSet, hp]
      rw [hset]
      simp only [dictKeys, List.map_cons, List.mem_cons] at ih ⊢
      rw [ih]
      tauto

theorem dictKeys_nodup_dictSet (d : List (α × β)) (k : α) (v : β)
    (h : (dictKeys d).Nodup) : (dictKeys (dictSet d k v)).Nodup := by
  induction d with
  | nil => simp [dictSet, dictKeys]
  | cons p rest ih =>
    obtain ⟨k0, v0⟩ := p
    simp only [dictKeys, List.map_cons, List.nodup_cons] at h
    by_cases hp : k0 = k
    · subst hp
      have hset : dictSet ((k0, v0) :: rest) k0 v = (k0, v) :: rest := by
        simp [dictSet]
      rw [hset]
      simp only [dictKeys, List.map_cons, List.nodup_cons]
      exact h
    · simp only [dictSet, if_neg hp, dictKeys, List.map_cons, List.nodup_cons]
      refine ⟨fun hc => ?_, ih h.2⟩
      rw [show List.map Prod.fst (dictSet rest k v) = dictKeys (dictSet rest k v) from rfl,
        mem_dictKeys_dictSet] at hc
      rcases hc with hc | hc
      · exact hp hc
      · exact h.1 hc

theorem dictGet_dictErase_ne (d : List (α × β)) {k k' : α} (h : k' ≠ k) :
    dictGet (dictErase d k) k' = dictGet d k' := by
  induction d with
  | nil => simp [dictErase, dictGet]
  | cons p rest ih =>
    obtain ⟨k0, v0⟩ := p
    by_cases hp : k0 = k
    · subst hp
      have : ¬k0 = k' := fun he => h he.symm
      simp [dictErase, dictGet, this]
    · by_cases hp' : k0 = k'
      · simp [dictErase, dictGet, hp, hp', h]
      · simp [dictErase, dictGet, hp, hp', ih]

theorem dictGet_eq_none_iff (d : List (α × β)) (k : α) :
    dictGet d k = none ↔ k ∉ dictKeys d := by
  induction d with
  | nil => simp [dictGet, dictKeys]
  | cons p rest ih =>
    obtain ⟨k0, v0⟩ := p
    by_cases hp : k0 = k
    · simp [dictGet, dictKeys, hp]
    · have : ¬k = k0 := fun he => hp he.symm
      simp [dictGet, dictKeys, hp, ih, this]

theorem dictGet_dictErase_self (d : List (α × β)) (k : α)
    (h : (dictKeys d).Nodup) : dictGet (dictErase d k) k = none := by
  induction d with
  | nil => simp [dictErase, dictGet]
  | cons p rest ih =>
    obtain ⟨k0, v0⟩ := p
    simp only [dictKeys, List.map_cons, List.nodup_cons] at h
    by_cases hp : k0 = k
    · subst hp
      simp only [dictErase, if_pos rfl]
      rw [dictGet_eq_none_iff]
      exact h.1
    · simp [dictErase, dictGet, hp, ih h.2]

theorem dictGet_isSome_iff (d : List (α × β)) (k : α) :
    (dictGet d k).isSome = true ↔ k ∈ dictKeys d := by
  rw [← Decidable.not_iff_not, ← dictGet_eq_none_iff]
  cases dictGet d k <;> simp

end DictLemmas

/-! ### The case-insensitive sort order -/

theorem lexLeB_total : ∀ a b : Str, lexLeB a b = true ∨ lexLeB b a = true
  | [], _ => Or.inl rfl
  | _ :: _, [] => Or.inr rfl
  | a :: xs, b :: ys => by
    by_cases hab : a = b
    · subst hab
      rcases lexLeB_total xs ys with h | h
      · exact Or.inl (by simp [lexLeB, h])
      · exact Or.inr (by simp [lexLeB, h])
    · rcases lt_or_gt_of_ne hab with h | h
      · exact Or.inl (by simp [lexLeB, hab, h])
      · have hba : ¬b = a := fun he => hab he.symm
        exact Or.inr (by simp [lexLeB, hba, h])

theorem lexLeB_trans : ∀ (a b c : Str),
    lexLeB a b = true → lexLeB b c = true → lexLeB a c = true := by
  intro a
  induction a with
  | nil => intro b c _ _; rfl
  | cons x xs ih =>
    intro b c h1 h2
    cases b with
    | nil => simp [lexLeB] at h1
    | cons y ys =>
      cases c with
      | nil => simp [lexLeB] at h2
      | cons z zs =>
        simp only [lexLeB] at h1 h2 ⊢
        by_cases hxy : x = y
        · subst hxy
          rw [if_pos rfl] at h1
          by_cases hyz : x = z
          · subst hyz
            rw [if_pos rfl] at h2 ⊢
            exact ih ys zs h1 h2
          · rw [if_neg hyz] at h2 ⊢
            exact h2
        · rw [if_neg hxy] at h1
          have hxyl : x < y := of_decide_eq_true h1
          by_cases hyz : y = z
          · subst hyz
            rw [if_neg hxy]
            exact h1
          · rw [if_neg hyz] at h2
            have hyzl : y < z := of_decide_eq_true h2
            have hxzl : x < z := lt_trans hxyl hyzl
            rw [if_neg (ne_of_lt hxzl)]
            exact decide_eq_true hxzl

theorem catLe_total (a b : Str) : catLe a b ∨ catLe b a :=
  lexLeB_total (lowerChars a) (lowerChars b)

theorem catLe_trans {a b c : Str} (h1 : catLe a b) (h2 : catLe b c) : catLe a c :=
  lexLeB_trans (lowerChars a) (lowerChars b) (lowerChars c) h1 h2

/-! ### Splitting lemmas -/

theorem splitOnSep_ne_nil (sep : Char) (l : Str) : splitOnSep sep l ≠ [] := by
  cases l with
  | nil => simp [splitOnSep]
  | cons c rest =>
    by_cases h : c = sep
    · simp [splitOnSep, h]
    · simp only [splitOnSep, if_neg h]
      cases hs : splitOnSep sep rest <;> simp

theorem splitOnSep_headI (sep : Char) (l : Str) :
    (splitOnSep sep l).headI = l.takeWhile (fun c => c != sep) := by
  induction l with
  | nil => rfl
  | cons c rest ih =>
    by_cases h : c = sep
    · subst h
      simp [splitOnSep, List.takeWhile_cons]
    · simp only [splitOnSep, if_neg h]
      cases hs : splitOnSep sep rest with
      | nil => exact absurd hs (splitOnSep_ne_nil sep rest)
      | cons p ps =>
        rw [hs] at ih
        simp only [List.headI] at ih
        simp [List.takeWhile_cons, bne_iff_ne, h, ← ih]

theorem splitOnSep_append (sep : Char) {a : Str} (r : Str) (ha : sep ∉ a) :
    splitOnSep sep (a ++ sep :: r) = a :: splitOnSep sep r := by
  induction a with
  | nil => simp [splitOnSep]
  | cons c t ih =>
    have hc : ¬c = sep := fun he => ha (he ▸ List.mem_cons_self c t)
    have hrec := ih (fun hm => ha (List.mem_cons_of_mem c hm))
    simp only [List.cons_append, splitOnSep, if_neg hc]
    rw [show splitOnSep sep (t.append (sep :: r)) = t :: splitOnSep sep r from hrec]

theorem splitOnSep_eq_singleton_nil_iff (sep : Char) (l : Str) :
    splitOnSep sep l = [[]] ↔ l = [] := by
  constructor
  · intro h
    cases l with
    | nil => rfl
    | cons c rest =>
      by_cases hc : c = sep
      · rw [show splitOnSep sep (c :: rest) = [] :: splitOnSep sep rest by
            simp [splitOnSep, hc]] at h
        have : splitOnSep sep rest = [] := by
          simpa using h
        exact absurd this (splitOnSep_ne_nil sep rest)
      · simp only [splitOnSep, if_neg hc] at h
        cases hs : splitOnSep sep rest with
        | nil => exact absurd hs (splitOnSep_ne_nil sep rest)
        | cons p ps =>
          rw [hs] at h
          simp at h
  · rintro rfl
    rfl

/-! ### `calculate_totals` lemmas -/

theorem totals_fold_get (records : List ExpenseRecord) (acc : List (Str × ℚ)) (c : Str) :
    dictGetD (records.foldl (fun totals r =>
        dictSet totals r.category (dictGetD totals r.category 0 + r.amount)) acc) c 0 =
      dictGetD acc c 0 +
        ((records.filter (fun r => r.category == c)).map ExpenseRecord.amount).sum := by
  induction records generalizing acc with
  | nil => simp
  | cons r rest ih =>
    rw [List.foldl_cons, ih]
    by_cases hc : r.category = c
    · rw [List.filter_cons_of_pos (by simpa using hc)]
      rw [show dictGetD (dictSet acc r.category (dictGetD acc r.category 0 + r.amount)) c 0 =
          dictGetD acc r.category 0 + r.amount by
        unfold dictGetD
        rw [← hc, dictGet_dictSet_self]
        rfl]
      rw [hc]
      simp only [List.map_cons, List.sum_cons]
      ring
    · rw [List.filter_cons_of_neg (by simpa using hc)]
      rw [show dictGetD (dictSet acc r.category (dictGetD acc r.category 0 + r.amount)) c 0 =
          dictGetD acc c 0 by
        unfold dictGetD
        rw [dictGet_dictSet_ne _ _ (fun he => hc he.symm)]]

theorem calculate_totals_get (records : List ExpenseRecord) (c : Str) :
    dictGetD (calculate_totals records) c 0 =
      ((records.filter (fun r => r.category == c)).map ExpenseRecord.amount).sum := by
  have h := totals_fold_get records [] c
  unfold calculate_totals
  rw [h]
  simp [dictGetD, dictGet]

theorem totals_fold_keys (records : List ExpenseRecord) (acc : List (Str × ℚ)) (c : Str) :
    c ∈ dictKeys (records.foldl (fun totals r =>
        dictSet totals r.category (dictGetD totals r.category 0 + r.amount)) acc) ↔
      c ∈ dictKeys acc ∨ ∃ r ∈ records, r.category = c := by
  induction records generalizing acc with
  | nil => simp
  | cons r rest ih =>
    rw [List.foldl_cons, ih, mem_dictKeys_dictSet]
    simp only [List.mem_cons]
    constructor
    · rintro (⟨h | h⟩ | h)
      · exact Or.inr ⟨r, Or.inl rfl, h.symm⟩
      · exact Or.inl h
      · obtain ⟨r', hr', hc⟩ := h
        exact Or.inr ⟨r', Or.inr hr', hc⟩
    · rintro (h | ⟨r', hr' | hr', hc⟩)
      · exact Or.inl (Or.inr h)
      · exact Or.inl (Or.inl (by rw [← hc, hr']))
      · exact Or.inr ⟨r', hr', hc⟩

theorem calculate_totals_keys (records : List ExpenseRecord) (c : Str) :
    c ∈ dictKeys (calculate_totals records) ↔ ∃ r ∈ records, r.category = c := by
  unfold calculate_totals
  rw [totals_fold_keys]
  simp [dictKeys]

/-! ### `load_expenses_csv` fold lemmas -/

theorem loadFold_records_append (rules : List (Str × List Str)) (lines : List Str)
    (acc : LoadOutcome) :
    (lines.foldl (loadStep rules) acc).records =
      acc.records ++ (lines.foldl (loadStep rules) ⟨[], 0, 0⟩).records := by
  induction lines generalizing acc with
  | nil => simp
  | cons l rest ih =>
    rw [List.foldl_cons, List.foldl_cons, ih, ih (loadStep rules ⟨[], 0, 0⟩ l)]
    cases hrow : loadExpenseRow rules l <;> simp [loadStep, hrow]

theorem loadFold_congr (rules : List (Str × List Str)) {lines1 lines2 : List Str}
    (h : List.Forall₂ (fun l1 l2 => loadExpenseRow rules l1 = loadExpenseRow rules l2)
      lines1 lines2) :
    ∀ acc, lines1.foldl (loadStep rules) acc = lines2.foldl (loadStep rules) acc := by
  induction h with
  | nil => intro _; rfl
  | @cons a b l1 l2 hrow hrest ih =>
    intro acc
    rw [List.foldl_cons, List.foldl_cons]
    have hstep : loadStep rules acc a = loadStep rules acc b := by
      unfold loadStep
      rw [hrow]
    rw [hstep]
    exact ih _

/-! ### `extract_month` characterization -/

theorem pyIsdigit_of_ne_nil {l : Str} (h : l ≠ []) :
    pyIsdigit l = l.all Char.isDigit := by
  cases l with
  | nil => exact absurd rfl h
  | cons c t => simp [pyIsdigit]

theorem extract_month_eq (x : Str) :
    extract_month x =
      (if 7 ≤ (stripChars x).length ∧ (stripChars x)[4]? = some '-' ∧
          ((stripChars x).take 4).all Char.isDigit ∧
          (((stripChars x).drop 5).take 2).all Char.isDigit
       then some ((stripChars x).take 7) else none) := by
  unfold extract_month
  by_cases h7 : (stripChars x).length < 7
  · rw [if_pos h7, if_neg (fun hc => absurd hc.1 (by omega))]
  · rw [if_neg h7]
    have h7' : 7 ≤ (stripChars x).length := by omega
    have htk : (stripChars x).take 4 ≠ [] := by
      intro he
      have hl := congrArg List.length he
      rw [List.length_take] at hl
      simp only [List.length_nil] at hl
      omega
    have hdr : ((stripChars x).drop 5).take 2 ≠ [] := by
      intro he
      have hl := congrArg List.length he
      rw [List.length_take, List.length_drop] at hl
      simp only [List.length_nil] at hl
      omega
    rw [pyIsdigit_of_ne_nil htk, pyIsdigit_of_ne_nil hdr]
    by_cases hd : (stripChars x)[4]? = some '-'
    · rw [if_neg (fun hc => hc.2 hd)]
      cases hall1 : ((stripChars x).take 4).all Char.isDigit with
      | false =>
        rw [if_pos (by simp), if_neg (fun hc => by simp at hc)]
      | true =>
        cases hall2 : (((stripChars x).drop 5).take 2).all Char.isDigit with
        | false =>
          rw [if_pos (by simp), if_neg (fun hc => by simp at hc)]
        | true =>
          rw [if_neg (by simp), if_pos ⟨h7', hd, rfl, rfl⟩]
    · rw [if_pos ⟨by omega, hd⟩, if_neg (fun hc => hd hc.2.1)]

theorem extract_month_take_seven {x m : Str} (h : extract_month x = some m) :
    m = (stripChars x).take 7 := by
  rw [extract_month_eq] at h
  by_cases hc : 7 ≤ (stripChars x).length ∧ (stripChars x)[4]? = some '-' ∧
      ((stripChars x).take 4).all Char.isDigit ∧
      (((stripChars x).drop 5).take 2).all Char.isDigit
  · rw [if_pos hc] at h
    exact (Option.some.injEq _ _ ▸ h).symm
  · rw [if_neg hc] at h
    exact absurd h (by simp)

/-! ### Monthly-summary lemmas -/

theorem show_monthly_summary_of_ne (records : List ExpenseRecord)
    (month_budgets : List (Str × ℚ)) (hne : records ≠ []) :
    show_monthly_summary records month_budgets =
      some ⟨(all_categories_from_data_and_budgets (calculate_totals records) month_budgets).map
              (summaryRow (calculate_totals records) month_budgets),
            (all_categories_from_data_and_budgets (calculate_totals records)
                month_budgets).filter (fun c =>
              match dictGet month_budgets c with
              | some b => decide (b - dictGetD (calculate_totals records) c 0 < 0)
              | none => false),
            ((all_categories_from_data_and_budgets (calculate_totals records)
                month_budgets).map
              (fun c => dictGetD (calculate_totals records) c 0)).sum,
            ((all_categories_from_data_and_budgets (calculate_totals records)
                month_budgets).filterMap (dictGet month_budgets)).sum⟩ := by
  unfold show_monthly_summary
  rw [if_neg (by simpa using hne)]

theorem mem_all_categories (totals month_budgets : List (Str × ℚ)) (c : Str) :
    c ∈ all_categories_from_data_and_budgets totals month_budgets ↔
      c ∈ dictKeys totals ∨ c ∈ dictKeys month_budgets := by
  unfold all_categories_from_data_and_budgets
  rw [List.mem_insertionSort, List.mem_dedup, List.mem_append]

theorem nodup_all_categories (totals month_budgets : List (Str × ℚ)) :
    (all_categories_from_data_and_budgets totals month_budgets).Nodup :=
  ((List.perm_insertionSort catLe _).nodup_iff).mpr (List.nodup_dedup _)

theorem sorted_all_categories (totals month_budgets : List (Str × ℚ)) :
    List.Sorted catLe (all_categories_from_data_and_budgets totals month_budgets) := by
  haveI : IsTotal Str catLe := ⟨catLe_total⟩
  haveI : IsTrans Str catLe := ⟨fun _ _ _ => catLe_trans⟩
  exact List.sorted_insertionSort catLe _

theorem summaryRow_cat (totals month_budgets : List (Str × ℚ)) (c : Str) :
    (summaryRow totals month_budgets c).cat = c := by
  unfold summaryRow
  cases dictGet month_budgets c <;> rfl

theorem summaryRow_spent (totals month_budgets : List (Str × ℚ)) (c : Str) :
    (summaryRow totals month_budgets c).spent = dictGetD totals c 0 := by
  unfold summaryRow
  cases dictGet month_budgets c <;> rfl

theorem summaryRow_budget (totals month_budgets : List (Str × ℚ)) (c : Str) :
    (summaryRow totals month_budgets c).budget = dictGet month_budgets c := by
  unfold summaryRow
  cases dictGet month_budgets c <;> rfl

theorem summaryRow_status (totals month_budgets : List (Str × ℚ)) (c : Str) :
    (summaryRow totals month_budgets c).status =
      (match dictGet month_budgets c with
       | none => NO_BUDGET
       | some b => if b - dictGetD totals c 0 < 0 then BUDGET_EXCEEDED else OK_STATUS) := by
  unfold summaryRow
  cases dictGet month_budgets c with
  | none => rfl
  | some b =>
    show (if 0 ≤ b - dictGetD totals c 0 then OK_STATUS else BUDGET_EXCEEDED) =
      (if b - dictGetD totals c 0 < 0 then BUDGET_EXCEEDED else OK_STATUS)
    by_cases h : 0 ≤ b - dictGetD totals c 0
    · rw [if_pos h, if_neg (not_lt_of_le h)]
    · rw [if_neg h, if_pos (lt_of_not_le h)]

/-- Claim C1: for a selected month with a non-empty record list, the
summary lists exactly the case-insensitively sorted union of spend and
budget categories; `spent` is the per-category record sum (0 when absent),
the status is NO BUDGET / BUDGET EXCEEDED / OK as the cap dictates, and the
running totals sum all spending resp. only the existing caps. -/
theorem claim_C1 (records : List ExpenseRecord) (month_budgets : List (Str × ℚ))
    (hne : records ≠ []) : monthlySummarySpec records month_budgets := by
  unfold monthlySummarySpec
  rw [show_monthly_summary_of_ne records month_budgets hne]
  have hcat : (List.map (summaryRow (calculate_totals records) month_budgets)
        (all_categories_from_data_and_budgets (calculate_totals records) month_budgets)).map
        SummaryRow.cat =
      all_categories_from_data_and_budgets (calculate_totals records) month_budgets := by
    rw [List.map_map, show SummaryRow.cat ∘ summaryRow (calculate_totals records) month_budgets
        = id from funext (fun c => summaryRow_cat _ _ c), List.map_id]
  refine ⟨_, rfl, ?_, ?_, ?_, ?_, ?_, ?_⟩
  · dsimp only
    rw [hcat]
    exact nodup_all_categories _ _
  · dsimp only
    rw [hcat]
    exact sorted_all_categories _ _
  · intro c
    dsimp only
    rw [hcat, mem_all_categories, calculate_totals_keys]
  · intro row hrow
    dsimp only at hrow
    obtain ⟨c, _, rfl⟩ := List.mem_map.mp hrow
    rw [summaryRow_cat, summaryRow_spent, summaryRow_budget, summaryRow_status,
      calculate_totals_get]
    exact ⟨rfl, rfl, rfl⟩
  · dsimp only
    rw [List.map_map, show SummaryRow.spent ∘ summaryRow (calculate_totals records) month_budgets
        = (fun c => dictGetD (calculate_totals records) c 0) from
      funext (fun c => summaryRow_spent _ _ c)]
  · dsimp only
    rw [List.filterMap_map, show SummaryRow.budget ∘
        summaryRow (calculate_totals records) month_budgets = dictGet month_budgets from
      funext (fun c => summaryRow_budget _ _ c)]

/-- Witness for claim C1 at the spec's worked example. -/
theorem claim_C1_witness : c1_records ≠ [] ∧ monthlySummarySpec c1_records c1_budgets :=
  ⟨by decide, claim_C1 c1_records c1_budgets (by decide)⟩

/-- Claim C2 counterexample: with a budget for Food but zero expense
records, the summary reports nothing at all — it does not list Food with
spent 0 as the claim states. -/
theorem claim_C2_counterexample :
    ¬ ∃ s, show_monthly_summary ([] : List ExpenseRecord) [("Food".data, (40 : ℚ))] = some s ∧
        ∃ row ∈ s.rows, row.cat = "Food".data ∧ row.spent = 0 := by
  rintro ⟨s, hs, -⟩
  simp [show_monthly_summary] at hs

/-- Claim C2 (amended): a month with zero expense records yields no summary
at all, whatever budgets exist; when the month has at least one record,
every budgeted category still appears (with spent = 0 if nothing was spent
on it) and the category list is non-empty. -/
theorem claim_C2 :
    (∀ month_budgets : List (Str × ℚ), show_monthly_summary [] month_budgets = none) ∧
    (∀ (records : List ExpenseRecord) (month_budgets : List (Str × ℚ)),
      records ≠ [] → ∀ c ∈ dictKeys month_budgets,
      ∃ s, show_monthly_summary records month_budgets = some s ∧ s.rows ≠ [] ∧
        ∃ row ∈ s.rows, row.cat = c ∧
          ((∀ r ∈ records, r.category ≠ c) → row.spent = 0)) := by
  constructor
  · intro month_budgets
    simp [show_monthly_summary]
  · intro records month_budgets hne c hc
    rw [show_monthly_summary_of_ne records month_budgets hne]
    refine ⟨_, rfl, ?_, ?_⟩
    · have hmem : c ∈ all_categories_from_data_and_budgets (calculate_totals records)
          month_budgets := (mem_all_categories _ _ c).mpr (Or.inr hc)
      intro hnil
      rw [List.map_eq_nil_iff] at hnil
      exact List.ne_nil_of_mem hmem hnil
    · refine ⟨summaryRow (calculate_totals records) month_budgets c,
        List.mem_map_of_mem _ ((mem_all_categories _ _ c).mpr (Or.inr hc)),
        summaryRow_cat _ _ c, ?_⟩
      intro hnone
      rw [summaryRow_spent, calculate_totals_get]
      rw [List.filter_eq_nil_iff.mpr (fun r hr => by simpa using hnone r hr)]
      rfl

/-- Witness for claim C2: budgets contain Food, the records do not. -/
theorem claim_C2_witness :
    c2_records ≠ [] ∧ "Food".data ∈ dictKeys c2_budgets ∧
      (∃ s, show_monthly_summary c2_records c2_budgets = some s ∧ s.rows ≠ [] ∧
        ∃ row ∈ s.rows, row.cat = "Food".data ∧
          ((∀ r ∈ c2_records, r.category ≠ "Food".data) → row.spent = 0)) :=
  ⟨by decide, by decide, claim_C2.2 c2_records c2_budgets (by decide) _ (by decide)⟩

/-! ### Classification -/

theorem categorize_scan_eq_find (rules : List (Str × List Str)) (text : Str) :
    categorize_scan rules text =
      (match rules.find? (ruleHits text) with
       | some rule => rule.1
       | none => DEFAULT_CATEGORY) := by
  induction rules with
  | nil => rfl
  | cons rule rest ih =>
    obtain ⟨cat, kws⟩ := rule
    by_cases h : kws.any (fun kw => pyIn kw text)
    · simp [categorize_scan, h, List.find?_cons, ruleHits]
    · simp [categorize_scan, h, List.find?_cons, ruleHits, ih]

/-- Claim C3: month parsing yields the first 7 characters of the trimmed
input exactly when the trimmed input has length ≥ 7, position 4 is a dash,
and the `[0:4]` and `[5:7]` runs are decimal digits; otherwise it signals
invalid.  No 01–12 month-range check: `"2025-99"` is accepted. -/
theorem claim_C3 :
    (∀ input : Str,
      extract_month input =
        (if 7 ≤ (stripChars input).length ∧ (stripChars input)[4]? = some '-' ∧
            ((stripChars input).take 4).all Char.isDigit ∧
            (((stripChars input).drop 5).take 2).all Char.isDigit
         then some ((stripChars input).take 7) else none)) ∧
    extract_month "2025-11-01".data = some ("2025-11".data) ∧
    extract_month "2025/11/01".data = none ∧
    extract_month "2025-1".data = none ∧
    extract_month "2025-99".data = some ("2025-99".data) :=
  ⟨extract_month_eq, by decide, by decide, by decide, by decide⟩

/-- Claim C4: classification lowercases the text (an absent description is
the empty string), scans the rules in stored order and returns the first
rule with a substring-matching keyword, falling back to "Other"; with the
default rules, "Coffee at the Cinema" matches the earlier-stored Food rule
even though an Entertainment keyword also occurs. -/
theorem claim_C4 :
    (∀ rules : List (Str × List Str),
      categorize_expense rules none = categorize_expense rules (some [])) ∧
    (∀ (rules : List (Str × List Str)) (d : Option Str),
      categorize_expense rules d =
        (match rules.find? (ruleHits (lowerChars (d.getD []))) with
         | some rule => rule.1
         | none => DEFAULT_CATEGORY)) ∧
    categorize_expense CATEGORY_RULES (some ("Coffee at the Cinema".data)) = "Food".data ∧
    categorize_expense CATEGORY_RULES (some []) = "Other".data ∧
    categorize_expense CATEGORY_RULES none = "Other".data :=
  ⟨fun _ => rfl, fun rules d => categorize_scan_eq_find rules _, by decide, by decide, by decide⟩

/-! ### The rename cascade -/

theorem rename_month_of_none (oldCat newCat : Str) {b : List (Str × ℚ)}
    (h : dictGet b oldCat = none) :
    rename_in_month_budgets oldCat newCat b = (b, false) := by
  unfold rename_in_month_budgets
  rw [h]

theorem rename_month_of_collision (oldCat newCat : Str) {b : List (Str × ℚ)} {v w : ℚ}
    (hv : dictGet b oldCat = some v)
    (hw : dictGet (dictErase b oldCat) newCat = some w) :
    rename_in_month_budgets oldCat newCat b = (dictErase b oldCat, true) := by
  unfold rename_in_month_budgets
  rw [hv]
  dsimp only
  rw [hw]

theorem rename_month_of_move (oldCat newCat : Str) {b : List (Str × ℚ)} {v : ℚ}
    (hv : dictGet b oldCat = some v)
    (hw : dictGet (dictErase b oldCat) newCat = none) :
    rename_in_month_budgets oldCat newCat b =
      (dictSet (dictErase b oldCat) newCat v, false) := by
  unfold rename_in_month_budgets
  rw [hv]
  dsimp only
  rw [hw]

/-- Claim C5: a successful rename to a different name rewrites exactly the
expenses carrying the old category, and moves each month's cap under the
new key — except that a pre-existing cap at the destination is kept, the
old value dropped, and the month flagged with a non-fatal warning; the
cascade always completes. -/
theorem claim_C5 (oldCat newCat : Str) (hne : newCat ≠ oldCat) (es : List ExpenseRecord)
    (bbm : List (Str × List (Str × ℚ))) : renameSpec oldCat newCat es bbm := by
  have hcasc : rename_category_cascade oldCat newCat es bbm =
      (rename_in_expenses oldCat newCat es,
       bbm.map (fun mb => (mb.1, (rename_in_month_budgets oldCat newCat mb.2).1)),
       (bbm.filter (fun mb => (rename_in_month_budgets oldCat newCat mb.2).2)).map
         Prod.fst) := by
    unfold rename_category_cascade
    rw [if_neg hne]
  unfold renameSpec
  rw [hcasc]
  constructor
  · unfold rename_in_expenses
    rw [List.forall₂_map_right_iff, List.forall₂_same]
    intro r _
    constructor
    · intro hc
      rw [if_pos hc]
    · intro hc
      rw [if_neg hc]
  · rw [List.forall₂_map_right_iff, List.forall₂_same]
    intro mb hmb
    dsimp only
    refine ⟨rfl, ?_⟩
    intro hnodup
    have hoe : oldCat ≠ newCat := fun he => hne he.symm
    constructor
    · intro hnone
      rw [rename_month_of_none oldCat newCat hnone]
    · intro v hv
      cases hnew : dictGet mb.2 newCat with
      | none =>
        have hnew' : dictGet (dictErase mb.2 oldCat) newCat = none := by
          rw [dictGet_dictErase_ne _ hne]
          exact hnew
        rw [rename_month_of_move oldCat newCat hv hnew']
        refine ⟨?_, ?_, ?_, ?_⟩
        · rw [dictGet_dictSet_ne _ _ hoe]
          exact dictGet_dictErase_self _ _ hnodup
        · intro _
          exact dictGet_dictSet_self _ _ _
        · intro w hw
          exact absurd hw (by simp)
        · intro k hko hkn
          rw [dictGet_dictSet_ne _ _ hkn, dictGet_dictErase_ne _ hko]
      | some w =>
        have hnew' : dictGet (dictErase mb.2 oldCat) newCat = some w := by
          rw [dictGet_dictErase_ne _ hne]
          exact hnew
        rw [rename_month_of_collision oldCat newCat hv hnew']
        refine ⟨?_, ?_, ?_, ?_⟩
        · exact dictGet_dictErase_self _ _ hnodup
        · intro hc
          exact absurd hc (by simp)
        · intro w0 hw0
          have hww : w = w0 := by
            injection hw0
          subst hww
          constructor
          · exact hnew'
          · refine List.mem_map_of_mem Prod.fst (List.mem_filter.mpr ⟨hmb, ?_⟩)
            rw [rename_month_of_collision oldCat newCat hv hnew']
        · intro k hko _
          exact dictGet_dictErase_ne _ hko

/-- Witness for claim C5: renaming Food to Meals over two records and two
months, one month holding a pre-existing Meals cap. -/
theorem claim_C5_witness :
    ("Meals".data : Str) ≠ "Food".data ∧
      renameSpec "Food".data "Meals".data c5_expenses c5_budgets :=
  ⟨by decide, claim_C5 "Food".data "Meals".data (by decide) c5_expenses c5_budgets⟩

/-! ### Budget editing -/

/-- Claim C6 counterexample: editing the Food cap of a month that already
has a Meals cap of 100 into the Meals key does not refuse: it completes and
silently overwrites the pre-existing Meals cap with the moved value 40. -/
theorem claim_C6_counterexample :
    edit_budget [("Food".data, (40 : ℚ)), ("Meals".data, 100)] "Food".data 40
        "Meals".data [] = some [("Meals".data, 40)] ∧
      dictGet [("Meals".data, (40 : ℚ))] ("Meals".data) = some 40 ∧
      dictGet [("Meals".data, (40 : ℚ))] ("Meals".data) ≠ some 100 ∧
      dictGet [("Meals".data, (40 : ℚ))] ("Food".data) = none := by
  refine ⟨by decide, by decide, by decide, by decide⟩

/-- Claim C6 (amended): when a budget edit changes the category key, the
cap is removed from the old key and the (possibly updated) value is stored
under the new key, silently overwriting any cap already present at the
destination; other keys are untouched. -/
theorem claim_C6_amended (b : List (Str × ℚ)) (oldCat : Str) (oldValue : ℚ)
    (newCatIn newAmountIn : Str) (v : ℚ)
    (hnodup : (dictKeys b).Nodup)
    (hnc : ¬(stripChars newCatIn).isEmpty = true)
    (hneq : stripChars newCatIn ≠ oldCat)
    (hv : (if (stripChars newAmountIn).isEmpty then some oldValue
           else (safe_float (stripChars newAmountIn)).map round2) = some v) :
    edit_budget b oldCat oldValue newCatIn newAmountIn =
      some (dictSet (dictErase b oldCat) (stripChars newCatIn) v) ∧
    dictGet (dictSet (dictErase b oldCat) (stripChars newCatIn) v)
        (stripChars newCatIn) = some v ∧
    dictGet (dictSet (dictErase b oldCat) (stripChars newCatIn) v) oldCat = none ∧
    (∀ k, k ≠ oldCat → k ≠ stripChars newCatIn →
      dictGet (dictSet (dictErase b oldCat) (stripChars newCatIn) v) k = dictGet b k) := by
  refine ⟨?_, ?_, ?_, ?_⟩
  · unfold edit_budget
    dsimp only
    rw [if_neg hnc, hv]
    dsimp only
    rw [if_pos hneq]
  · exact dictGet_dictSet_self _ _ _
  · rw [dictGet_dictSet_ne _ _ (fun he => hneq he.symm)]
    exact dictGet_dictErase_self _ _ hnodup
  · intro k hko hkn
    rw [dictGet_dictSet_ne _ _ hkn, dictGet_dictErase_ne _ hko]

/-- Witness for the amended claim C6 at the counterexample's input. -/
theorem claim_C6_amended_witness :
    (dictKeys [("Food".data, (40 : ℚ)), ("Meals".data, 100)]).Nodup ∧
      (¬(stripChars ("Meals".data)).isEmpty = true) ∧
      stripChars ("Meals".data) ≠ "Food".data ∧
      ((if (stripChars ([] : Str)).isEmpty then some (40 : ℚ)
        else (safe_float (stripChars ([] : Str))).map round2) = some 40) ∧
      edit_budget [("Food".data, (40 : ℚ)), ("Meals".data, 100)] "Food".data 40
          "Meals".data [] =
        some (dictSet (dictErase [("Food".data, (40 : ℚ)), ("Meals".data, 100)] "Food".data)
          (stripChars ("Meals".data)) 40) :=
  ⟨by decide, by decide, by decide, by decide,
    (claim_C6_amended [("Food".data, (40 : ℚ)), ("Meals".data, 100)] "Food".data 40
      "Meals".data [] 40 (by decide) (by decide) (by decide) (by decide)).1⟩

/-! ### Expense editing and validation failures -/

theorem edit_expense_date_invalid (rules : List (Str × List Str))
    (nd ndesc na : Str) (r : ExpenseRecord)
    (hnd : ¬(stripChars nd).isEmpty = true) (hm : extract_month (stripChars nd) = none) :
    edit_expense rules nd ndesc na r = r := by
  unfold edit_expense edit_expense_dateStep
  rw [if_neg hnd, hm]

theorem edit_expense_amount_invalid (rules : List (Str × List Str))
    (nd ndesc na : Str) (r : ExpenseRecord)
    (hna : ¬(stripChars na).isEmpty = true) (hsf : safe_float (stripChars na) = none) :
    edit_expense rules nd ndesc na r = edit_expense rules nd ndesc [] r := by
  unfold edit_expense
  cases hds : edit_expense_dateStep (stripChars nd) r with
  | none => rfl
  | some r1 =>
    dsimp only
    unfold edit_expense_amountStep
    rw [if_neg hna, hsf]
    rfl

theorem edit_expense_amountStep_amount (na : Str) (r : ExpenseRecord)
    (h : safe_float na = none ∨ na.isEmpty = true) :
    (edit_expense_amountStep na r).amount = r.amount := by
  unfold edit_expense_amountStep
  by_cases hna : na.isEmpty = true
  · rw [if_pos hna]
  · rw [if_neg hna]
    rcases h with h | h
    · rw [h]
    · exact absurd h hna

theorem edit_expense_descStep_amount (rules : List (Str × List Str)) (ndesc : Str)
    (r : ExpenseRecord) : (edit_expense_descStep rules ndesc r).amount = r.amount := by
  unfold edit_expense_descStep
  by_cases h : ndesc.isEmpty = true
  · rw [if_pos h]
  · rw [if_neg h]

theorem edit_expense_dateStep_amount (nd : Str) (r : ExpenseRecord) {r1 : ExpenseRecord}
    (h : edit_expense_dateStep nd r = some r1) : r1.amount = r.amount := by
  unfold edit_expense_dateStep at h
  by_cases hnd : nd.isEmpty = true
  · rw [if_pos hnd] at h
    cases h
    rfl
  · rw [if_neg hnd] at h
    cases hm : extract_month nd with
    | none => rw [hm] at h; cases h
    | some m =>
      rw [hm] at h
      cases h
      rfl

/-- Claim C7 counterexample: an expense edit whose new amount is invalid
reports "Edit cancelled" yet keeps the date and description changes already
applied in place — the record is not left unchanged. -/
theorem claim_C7_counterexample :
    stripChars ("abc".data) ≠ [] ∧ safe_float (stripChars ("abc".data)) = none ∧
      edit_expense CATEGORY_RULES "2025-12-02".data "uber".data "abc".data c7_record ≠
        c7_record ∧
      edit_expense CATEGORY_RULES "2025-12-02".data "uber".data "abc".data c7_record =
        ⟨"2025-12-02".data, "uber".data, 10, "Transport".data, "2025-12".data⟩ := by
  refine ⟨by decide, by decide, ?_, by decide⟩
  intro he
  exact absurd (congrArg ExpenseRecord.date he) (by decide)

/-- Claim C7 (amended): every operation that reports a validation failure
(malformed amount, malformed date/month, or empty required field) aborts
without mutating any state — a bad date or amount leaves `add_expense`'s
list unchanged, a bad date cancels the expense edit with the record
unchanged, a bad month or amount cancels `add_budget` and a bad amount
cancels `edit_budget` with the budget maps untouched, and an empty category
name or an empty keyword list cancels `add_category` and `edit_category`
with the rules, expenses and budgets untouched — with one exception: an
expense edit cancelled at the amount step keeps the date and description
changes already applied, leaving only the amount at its old value. -/
theorem claim_C7 :
    (∀ (rules : List (Str × List Str)) (dateIn descIn amountIn : Str)
        (es : List ExpenseRecord), extract_month (stripChars dateIn) = none →
      add_expense rules dateIn descIn amountIn es = es) ∧
    (∀ (rules : List (Str × List Str)) (dateIn descIn amountIn : Str)
        (es : List ExpenseRecord), safe_float (stripChars amountIn) = none →
      add_expense rules dateIn descIn amountIn es = es) ∧
    (∀ (rules : List (Str × List Str)) (nd ndesc na : Str) (r : ExpenseRecord),
      ¬(stripChars nd).isEmpty = true → extract_month (stripChars nd) = none →
      edit_expense rules nd ndesc na r = r) ∧
    (∀ (rules : List (Str × List Str)) (nd ndesc na : Str) (r : ExpenseRecord),
      ¬(stripChars na).isEmpty = true → safe_float (stripChars na) = none →
      edit_expense rules nd ndesc na r = edit_expense rules nd ndesc [] r ∧
        (edit_expense rules nd ndesc na r).amount = r.amount) ∧
    (∀ (mb : List (Str × ℚ)) (oldCat : Str) (oldValue : ℚ) (ncIn naIn : Str),
      ¬(stripChars naIn).isEmpty = true → safe_float (stripChars naIn) = none →
      edit_budget mb oldCat oldValue ncIn naIn = none) ∧
    (∀ (bbm : List (Str × List (Str × ℚ))) (mIn cIn aIn : Str),
      extract_month (stripChars mIn) = none → add_budget bbm mIn cIn aIn = none) ∧
    (∀ (bbm : List (Str × List (Str × ℚ))) (mIn cIn aIn : Str),
      safe_float (stripChars aIn) = none → add_budget bbm mIn cIn aIn = none) ∧
    (∀ (rules : List (Str × List Str)) (cIn kIn : Str),
      (stripChars cIn).isEmpty = true → add_category rules cIn kIn = none) ∧
    (∀ (rules : List (Str × List Str)) (cIn kIn : Str),
      parseKeywords (stripChars kIn) = [] → add_category rules cIn kIn = none) ∧
    (∀ (rules : List (Str × List Str)) (idx : Nat) (ncIn kIn : Str)
        (es : List ExpenseRecord) (bbm : List (Str × List (Str × ℚ))),
      parseKeywords (stripChars kIn) = [] →
      edit_category rules idx ncIn KeywordChoice.addKw kIn es bbm = none ∧
        edit_category rules idx ncIn KeywordChoice.removeKw kIn es bbm = none) := by
  refine ⟨?_, ?_, ?_, ?_, ?_, ?_, ?_, ?_, ?_, ?_⟩
  · intro rules dateIn descIn amountIn es hm
    unfold add_expense
    dsimp only
    rw [hm]
  · intro rules dateIn descIn amountIn es hsf
    unfold add_expense
    dsimp only
    cases hm : extract_month (stripChars dateIn) with
    | none => rfl
    | some m =>
      dsimp only
      rw [hsf]
  · exact edit_expense_date_invalid
  · intro rules nd ndesc na r hna hsf
    refine ⟨edit_expense_amount_invalid rules nd ndesc na r hna hsf, ?_⟩
    unfold edit_expense
    cases hds : edit_expense_dateStep (stripChars nd) r with
    | none => rfl
    | some r1 =>
      rw [edit_expense_amountStep_amount _ _ (Or.inl hsf),
        edit_expense_descStep_amount]
      exact edit_expense_dateStep_amount _ _ hds
  · intro mb oldCat oldValue ncIn naIn hne hsf
    unfold edit_budget
    dsimp only
    rw [if_neg hne, hsf]
    rfl
  · intro bbm mIn cIn aIn hm
    unfold add_budget
    dsimp only
    by_cases h0 : (stripChars mIn).isEmpty = true
    · rw [if_pos h0]
    · rw [if_neg h0, hm]
  · intro bbm mIn cIn aIn hsf
    unfold add_budget
    dsimp only
    by_cases h0 : (stripChars mIn).isEmpty = true
    · rw [if_pos h0]
    · rw [if_neg h0]
      cases hm : extract_month (stripChars mIn) with
      | none => rfl
      | some m =>
        dsimp only
        by_cases hc : (stripChars cIn).isEmpty = true
        · rw [if_pos hc]
        · rw [if_neg hc, hsf]
  · intro rules cIn kIn h0
    unfold add_category
    dsimp only
    rw [if_pos h0]
  · intro rules cIn kIn hk
    unfold add_category
    dsimp only
    by_cases h0 : (stripChars cIn).isEmpty = true
    · rw [if_pos h0]
    · rw [if_neg h0]
      by_cases hdup :
          (rules.any fun r => lowerChars r.1 == lowerChars (stripChars cIn)) = true
      · rw [if_pos hdup]
      · rw [if_neg hdup, hk]
        rfl
  · intro rules idx ncIn kIn es bbm hk
    constructor
    all_goals
      unfold edit_category
      cases hidx : rules[idx]? with
      | none => rfl
      | some rule =>
        dsimp only
        by_cases hdup : (!(stripChars ncIn).isEmpty && rules.any fun r =>
            lowerChars r.1 == lowerChars (stripChars ncIn) &&
              !(lowerChars r.1 == lowerChars rule.1)) = true
        · rw [if_pos hdup]
        · rw [if_neg hdup]
          rw [hk]
          rfl

/-- Witness for the amended claim C7: a bad date cancels an add, a bad
amount cancels only the amount part of an edit, a bad amount cancels a
budget add and a budget edit with no new state, and an empty keyword list
cancels a category add and a category edit with no new state. -/
theorem claim_C7_witness :
    (extract_month (stripChars ("2025/12/02".data)) = none ∧
      add_expense CATEGORY_RULES "2025/12/02".data "coffee".data "5".data c5_expenses =
        c5_expenses) ∧
    ((¬(stripChars ("abc".data)).isEmpty = true) ∧
      safe_float (stripChars ("abc".data)) = none ∧
      edit_expense CATEGORY_RULES "2025-12-02".data "uber".data "abc".data c7_record =
        edit_expense CATEGORY_RULES "2025-12-02".data "uber".data [] c7_record ∧
      (edit_expense CATEGORY_RULES "2025-12-02".data "uber".data "abc".data
          c7_record).amount = c7_record.amount) ∧
    edit_budget [("Food".data, (40 : ℚ))] "Food".data 40 [] "abc".data = none ∧
    add_budget [] "2025-12".data "Food".data "abc".data = none ∧
    (parseKeywords (stripChars ([] : Str)) = [] ∧
      add_category CATEGORY_RULES "Pets".data [] = none ∧
      edit_category CATEGORY_RULES 0 [] KeywordChoice.addKw [] [] [] = none) :=
  ⟨⟨by decide, claim_C7.1 CATEGORY_RULES "2025/12/02".data "coffee".data "5".data c5_expenses
      (by decide)⟩,
   ⟨by decide, by decide,
    claim_C7.2.2.2.1 CATEGORY_RULES "2025-12-02".data "uber".data "abc".data c7_record
      (by decide) (by decide)⟩,
   claim_C7.2.2.2.2.1 [("Food".data, (40 : ℚ))] "Food".data 40 [] "abc".data
     (by decide) (by decide),
   claim_C7.2.2.2.2.2.2.1 [] "2025-12".data "Food".data "abc".data (by decide),
   ⟨by decide,
    claim_C7.2.2.2.2.2.2.2.2.1 CATEGORY_RULES "Pets".data [] (by decide),
    (claim_C7.2.2.2.2.2.2.2.2.2 CATEGORY_RULES 0 [] [] [] [] (by decide)).1⟩⟩

/-! ### Loaded records and the month invariant -/

theorem loadExpenseRow_loaded {rules : List (Str × List Str)} {line : Str} {r : ExpenseRecord}
    (h : loadExpenseRow rules line = .loadedRow r) :
    monthInv r ∧ r.category = categorize_expense rules (some r.desc) ∧
      stripChars r.date = r.date := by
  unfold loadExpenseRow at h
  by_cases h1 : (stripChars line).isEmpty = true
  · rw [if_pos h1] at h
    exact absurd h (by simp)
  · rw [if_neg h1] at h
    dsimp only at h
    by_cases h2 : ((splitOnComma (stripChars line)).map stripChars).length < 3
    · rw [if_pos h2] at h
      exact absurd h (by simp)
    · rw [if_neg h2] at h
      have hlen0 : 0 < ((splitOnComma (stripChars line)).map stripChars).length := by omega
      have hd0 : ((splitOnComma (stripChars line)).map stripChars).getD 0 [] =
          stripChars ((splitOnComma (stripChars line)).getD 0 []) := by
        rw [List.getD_eq_getElem _ _ hlen0, List.getElem_map,
          List.getD_eq_getElem _ _ (by simpa using hlen0)]
      cases hsf : safe_float (((splitOnComma (stripChars line)).map stripChars).getD 2 []) with
      | none =>
        cases hm : extract_month (((splitOnComma (stripChars line)).map stripChars).getD 0 [])
          with
        | none => rw [hsf, hm] at h; simp at h
        | some m => rw [hsf, hm] at h; simp at h
      | some amt =>
        cases hm : extract_month (((splitOnComma (stripChars line)).map stripChars).getD 0 [])
          with
        | none => rw [hsf, hm] at h; simp at h
        | some m =>
          rw [hsf, hm] at h
          simp only [RowOutcome.loadedRow.injEq] at h
          subst h
          refine ⟨?_, rfl, ?_⟩
          · unfold monthInv
            dsimp only
            rw [extract_month_take_seven hm, hd0, stripChars_idem, ← hd0]
          · rw [hd0, stripChars_idem]

theorem loadFold_records_prop (rules : List (Str × List Str)) (P : ExpenseRecord → Prop)
    (hP : ∀ line r, loadExpenseRow rules line = .loadedRow r → P r)
    (lines : List Str) (acc : LoadOutcome) (hacc : ∀ r ∈ acc.records, P r) :
    ∀ r ∈ (lines.foldl (loadStep rules) acc).records, P r := by
  induction lines generalizing acc with
  | nil => exact hacc
  | cons l rest ih =>
    rw [List.foldl_cons]
    apply ih
    intro r hr
    unfold loadStep at hr
    cases hrow : loadExpenseRow rules l with
    | blank =>
      rw [hrow] at hr
      exact hacc r hr
    | skippedRow =>
      rw [hrow] at hr
      exact hacc r hr
    | loadedRow r0 =>
      rw [hrow] at hr
      simp only [List.mem_append, List.mem_singleton] at hr
      rcases hr with hr | rfl
      · exact hacc r hr
      · exact hP l r hrow

/-- Claim C9: every operation creating or mutating an expense record (CSV
load, manual add, record edit) maintains the invariant that the month field
is exactly the first 7 characters of the date field, re-deriving the month
whenever the date changes. -/
theorem claim_C9 :
    (∀ (rules : List (Str × List Str)) (lines : List Str),
      ∀ r ∈ (load_expenses_csv rules lines).records, monthInv r) ∧
    (∀ (rules : List (Str × List Str)) (dateIn descIn amountIn : Str)
        (es : List ExpenseRecord), (∀ r ∈ es, monthInv r) →
      ∀ r ∈ add_expense rules dateIn descIn amountIn es, monthInv r) ∧
    (∀ (rules : List (Str × List Str)) (nd ndesc na : Str) (r : ExpenseRecord),
      monthInv r → monthInv (edit_expense rules nd ndesc na r)) := by
  refine ⟨?_, ?_, ?_⟩
  · intro rules lines r hr
    cases lines with
    | nil => simp [load_expenses_csv] at hr
    | cons l0 rest =>
      unfold load_expenses_csv at hr
      exact loadFold_records_prop rules monthInv
        (fun line r' h => (loadExpenseRow_loaded h).1) _ _
        (fun _ h => absurd h (List.not_mem_nil _)) r hr
  · intro rules dateIn descIn amountIn es hes r hr
    unfold add_expense at hr
    dsimp only at hr
    cases hm : extract_month (stripChars dateIn) with
    | none =>
      rw [hm] at hr
      exact hes r hr
    | some m =>
      rw [hm] at hr
      dsimp only at hr
      cases hsf : safe_float (stripChars amountIn) with
      | none =>
        rw [hsf] at hr
        exact hes r hr
      | some amt =>
        rw [hsf] at hr
        simp only [List.mem_append, List.mem_singleton] at hr
        rcases hr with hr | rfl
        · exact hes r hr
        · unfold monthInv
          dsimp only
          rw [extract_month_take_seven hm, stripChars_idem]
  · intro rules nd ndesc na r hinv
    unfold edit_expense
    cases hds : edit_expense_dateStep (stripChars nd) r with
    | none => exact hinv
    | some r1 =>
      dsimp only
      have h1 : monthInv r1 := by
        unfold edit_expense_dateStep at hds
        by_cases hnd : (stripChars nd).isEmpty = true
        · rw [if_pos hnd] at hds
          cases hds
          exact hinv
        · rw [if_neg hnd] at hds
          cases hm : extract_month (stripChars nd) with
          | none =>
            rw [hm] at hds
            cases hds
          | some m =>
            rw [hm] at hds
            cases hds
            unfold monthInv
            dsimp only
            rw [extract_month_take_seven hm, stripChars_idem]
      have h2 : monthInv (edit_expense_descStep rules (stripChars ndesc) r1) := by
        unfold edit_expense_descStep
        by_cases h : (stripChars ndesc).isEmpty = true
        · rw [if_pos h]
          exact h1
        · rw [if_neg h]
          exact h1
      unfold edit_expense_amountStep
      by_cases h : (stripChars na).isEmpty = true
      · rw [if_pos h]
        exact h2
      · rw [if_neg h]
        cases hsf : safe_float (stripChars na) with
        | none => exact h2
        | some amt => exact h2

/-- Witness for claim C9: the invariant after a manual add and after an
edit that changes the date. -/
theorem claim_C9_witness :
    ((∀ r ∈ c1_records, monthInv r) ∧
      ∀ r ∈ add_expense CATEGORY_RULES " 2025-12-05 ".data "cinema night".data "12".data
          c1_records, monthInv r) ∧
    (monthInv c7_record ∧
      monthInv (edit_expense CATEGORY_RULES "2025-10-09".data [] [] c7_record)) :=
  ⟨⟨by decide, claim_C9.2.1 CATEGORY_RULES " 2025-12-05 ".data "cinema night".data "12".data
      c1_records (by decide)⟩,
   ⟨by decide, claim_C9.2.2 CATEGORY_RULES "2025-10-09".data [] [] c7_record (by decide)⟩⟩

/-! ### The CSV round trip -/

theorem extract_month_length {x m : Str} (h : extract_month x = some m) :
    7 ≤ (stripChars x).length := by
  rw [extract_month_eq] at h
  by_cases hc : 7 ≤ (stripChars x).length ∧ (stripChars x)[4]? = some '-' ∧
      ((stripChars x).take 4).all Char.isDigit ∧
      (((stripChars x).drop 5).take 2).all Char.isDigit
  · exact hc.1
  · rw [if_neg hc] at h
    exact absurd h (by simp)

theorem sanitizeDesc_eq_self : ∀ {d : Str}, '\n' ∉ d → '\r' ∉ d → sanitizeDesc d = d := by
  intro d
  induction d with
  | nil => intro _ _; rfl
  | cons c t ih =>
    intro hn hr
    simp only [List.mem_cons, not_or] at hn hr
    unfold sanitizeDesc
    rw [List.map_cons,
      show t.map (fun c => if c = '\n' ∨ c = '\r' then ' ' else c) = t from ih hn.2 hr.2,
      if_neg (fun hc => hc.elim (fun he => hn.1 he.symm) (fun he => hr.1 he.symm))]

theorem safe_float_stripChars (x : Str) : safe_float (stripChars x) = safe_float x := by
  unfold safe_float
  rw [stripChars_idem]

theorem loadExpenseRow_roundTrip (rules : List (Str × List Str)) (showAmt : ℚ → Str)
    (r : ExpenseRecord) (hg : c8Good rules showAmt r) :
    loadExpenseRow rules (expenseRowLine showAmt r) = .loadedRow r := by
  obtain ⟨date, desc, amount, category, month⟩ := r
  obtain ⟨hds, hdc, hdn, hdm, hss, hsc, hsn, hsr, hcat, hac, han, hasf, hcn⟩ := hg
  dsimp only at hds hdc hdn hdm hss hsc hsn hsr hcat hac han hasf hcn
  have hdlen : 7 ≤ date.length := by
    have h7 := extract_month_length hdm
    rwa [hds] at h7
  have hdne : date ≠ [] := by
    intro he
    rw [he] at hdlen
    simp at hdlen
  have hdhead : ∀ c, date.head? = some c → wsp c = false :=
    fun c hc => head_not_of_dropWhile_eq_self (dropWhile_eq_self_of_strip hds) hc
  have hL : expenseRowLine showAmt ⟨date, desc, amount, category, month⟩ =
      ((date ++ ',' :: desc ++ ',' :: showAmt amount) ++ [',']) ++ category := by
    unfold expenseRowLine
    dsimp only
    rw [sanitizeDesc_eq_self hsn hsr]
    simp [List.append_assoc]
  have hahead : ∀ c, ((date ++ ',' :: desc ++ ',' :: showAmt amount) ++ [',']).head? = some c →
      wsp c = false := by
    intro c hc
    apply hdhead c
    cases hd : date with
    | nil => exact absurd hd hdne
    | cons x t =>
      rw [hd] at hc
      simp only [List.cons_append, List.head?_cons] at hc ⊢
      exact hc
  have halast : ∀ c,
      ((date ++ ',' :: desc ++ ',' :: showAmt amount) ++ [',']).reverse.head? = some c →
      wsp c = false := by
    intro c hc
    rw [List.reverse_append] at hc
    simp only [List.reverse_cons, List.reverse_nil, List.nil_append, List.cons_append,
      List.head?_cons, Option.some.injEq] at hc
    subst hc
    decide
  have hane : ((date ++ ',' :: desc ++ ',' :: showAmt amount) ++ [',']) ≠ [] := by
    intro he
    have hl := congrArg List.length he
    simp at hl
  have hraw : stripChars ((((date ++ ',' :: desc ++ ',' :: showAmt amount) ++ [','])) ++
        category) =
      ((date ++ ',' :: desc ++ ',' :: showAmt amount) ++ [',']) ++ rstripChars category :=
    stripChars_append_last hane hahead halast
  have hassoc : ((date ++ ',' :: desc ++ ',' :: showAmt amount) ++ [',']) ++
        rstripChars category =
      date ++ ',' :: (desc ++ ',' :: (showAmt amount ++ ',' :: rstripChars category)) := by
    simp [List.append_assoc]
  have hsplit : splitOnComma
      (date ++ ',' :: (desc ++ ',' :: (showAmt amount ++ ',' :: rstripChars category))) =
      date :: desc :: showAmt amount :: splitOnComma (rstripChars category) := by
    unfold splitOnComma
    rw [splitOnSep_append ',' _ hdc, splitOnSep_append ',' _ hsc, splitOnSep_append ',' _ hac]
  have hrawne : date ++ ',' :: (desc ++ ',' :: (showAmt amount ++ ',' :: rstripChars category))
      ≠ [] := by
    intro he
    have hl := congrArg List.length he
    simp at hl
  rw [hL]
  unfold loadExpenseRow
  rw [hraw, hassoc]
  rw [if_neg (by simp [hrawne]), hsplit]
  dsimp only
  simp only [List.map_cons]
  rw [hds, hss]
  rw [if_neg (by
    intro hlt
    simp only [List.length_cons] at hlt
    omega)]
  simp only [List.getD_cons_zero, List.getD_cons_succ]
  rw [safe_float_stripChars, hasf, hdm]
  rw [← hcat]

theorem loadFold_roundTrip (rules : List (Str × List Str)) (showAmt : ℚ → Str)
    (es : List ExpenseRecord) (hg : ∀ r ∈ es, c8Good rules showAmt r) :
    ∀ acc : LoadOutcome,
      (es.map (expenseRowLine showAmt)).foldl (loadStep rules) acc =
        ⟨acc.records ++ es, acc.loadedCount + es.length, acc.skippedCount⟩ := by
  induction es with
  | nil => intro acc; simp
  | cons r rest ih =>
    intro acc
    rw [List.map_cons, List.foldl_cons]
    have hrow := loadExpenseRow_roundTrip rules showAmt r (hg r (List.mem_cons_self r rest))
    rw [show loadStep rules acc (expenseRowLine showAmt r) =
        ⟨acc.records ++ [r], acc.loadedCount + 1, acc.skippedCount⟩ by
      unfold loadStep
      rw [hrow]]
    rw [ih (fun r' hr' => hg r' (List.mem_cons_of_mem r hr'))]
    simp only [LoadOutcome.mk.injEq, List.length_cons]
    refine ⟨by simp, by omega, trivial⟩

/-- Claim C8 counterexample: a record whose description contains a comma is
saved as a row that the loader then skips as malformed — the save emits a
row the loader rejects, and the round trip loses the record. -/
theorem claim_C8_counterexample :
    save_expenses_csv c8_showAmt c8_bad =
      some [EXPENSE_HEADER, "2025-11-01,a,b,5.0,Other".data] ∧
    (load_expenses_csv CATEGORY_RULES
      [EXPENSE_HEADER, "2025-11-01,a,b,5.0,Other".data]).records = [] ∧
    (load_expenses_csv CATEGORY_RULES
      [EXPENSE_HEADER, "2025-11-01,a,b,5.0,Other".data]).skippedCount = 1 :=
  ⟨by decide, by decide, by decide⟩

/-- Claim C8 (amended): for a non-empty expense list whose records have
comma-free, trim-stable, newline-free fields, classifier-consistent
categories and amounts whose printed form parses back exactly, saving and
reloading with the same rules reproduces the records verbatim and skips
nothing. -/
theorem claim_C8_amended (rules : List (Str × List Str)) (showAmt : ℚ → Str)
    (es : List ExpenseRecord) (hne : es ≠ [])
    (hg : ∀ r ∈ es, c8Good rules showAmt r) :
    ∃ out, save_expenses_csv showAmt es = some out ∧
      load_expenses_csv rules out = ⟨es, es.length, 0⟩ := by
  refine ⟨EXPENSE_HEADER :: es.map (expenseRowLine showAmt), ?_, ?_⟩
  · unfold save_expenses_csv
    rw [if_neg (by simpa using hne)]
  · show (if isExpenseHeader EXPENSE_HEADER = true then es.map (expenseRowLine showAmt)
        else EXPENSE_HEADER :: es.map (expenseRowLine showAmt)).foldl (loadStep rules)
          ⟨[], 0, 0⟩ = ⟨es, es.length, 0⟩
    rw [if_pos (by decide)]
    rw [loadFold_roundTrip rules showAmt es hg ⟨[], 0, 0⟩]
    simp

/-- Witness for the amended claim C8 on a well-behaved one-record list. -/
theorem claim_C8_amended_witness :
    ([c8_goodRecord] ≠ []) ∧ (∀ r ∈ [c8_goodRecord], c8Good CATEGORY_RULES c8_showAmt r) ∧
      ∃ out, save_expenses_csv c8_showAmt [c8_goodRecord] = some out ∧
        load_expenses_csv CATEGORY_RULES out = ⟨[c8_goodRecord], 1, 0⟩ :=
  ⟨by decide, by decide,
    claim_C8_amended CATEGORY_RULES c8_showAmt [c8_goodRecord] (by decide) (by decide)⟩

/-! ### The category column is ignored on load -/

theorem toLower_ne_comma {c : Char} (h : c ≠ ',') : Char.toLower c ≠ ',' := by
  unfold Char.toLower
  by_cases hc : c.toNat ≥ 65 ∧ c.toNat ≤ 90
  · rw [if_pos hc]
    intro he
    have h1 : (Char.ofNat (c.toNat + 32)).toNat = c.toNat + 32 := by
      unfold Char.ofNat
      rw [dif_pos]
      · rfl
      · exact Or.inl (by omega)
    rw [he] at h1
    have h2 : (',').toNat = 44 := by decide
    omega
  · rw [if_neg hc]
    exact h

theorem pyStartswith_append : ∀ {p l : Str}, pyStartswith p l = true → ∃ t, l = p ++ t := by
  intro p
  induction p with
  | nil => exact fun h => ⟨_, rfl⟩
  | cons x ps ih =>
    intro l h
    cases l with
    | nil => simp [pyStartswith] at h
    | cons c cs =>
      simp only [pyStartswith, Bool.and_eq_true, beq_iff_eq] at h
      obtain ⟨rfl, h2⟩ := h
      obtain ⟨t, ht⟩ := ih h2
      exact ⟨t, by rw [List.cons_append, ← ht]⟩

theorem append_cons_comma_inj : ∀ {a c b d : Str}, ',' ∉ a → ',' ∉ c →
    a ++ ',' :: b = c ++ ',' :: d → a = c := by
  intro a
  induction a with
  | nil =>
    intro c b d _ hc h
    cases c with
    | nil => rfl
    | cons x cs =>
      rw [List.nil_append, List.cons_append] at h
      injection h with h1 _
      have hx : ',' ∈ x :: cs := by
        rw [h1]
        exact List.mem_cons_self x cs
      exact absurd hx hc
  | cons y as ih =>
    intro c b d ha hc h
    cases c with
    | nil =>
      rw [List.nil_append, List.cons_append] at h
      injection h with h1 _
      have hy : ',' ∈ y :: as := by
        rw [← h1]
        exact List.mem_cons_self y as
      exact absurd hy ha
    | cons x cs =>
      rw [List.cons_append, List.cons_append] at h
      injection h with h1 h2
      rw [h1,
        ih (fun hm => ha (List.mem_cons_of_mem y hm))
          (fun hm => hc (List.mem_cons_of_mem x hm)) h2]

theorem splitOnSep_eq_single {sep : Char} : ∀ {l x : Str}, splitOnSep sep l = [x] → x = l := by
  intro l
  induction l with
  | nil =>
    intro x h
    simp only [splitOnSep, List.cons.injEq] at h
    exact h.1.symm
  | cons c rest ih =>
    intro x h
    by_cases hc : c = sep
    · rw [show splitOnSep sep (c :: rest) = [] :: splitOnSep sep rest by
          simp [splitOnSep, hc]] at h
      injection h with _ h2
      exact absurd h2 (splitOnSep_ne_nil sep rest)
    · simp only [splitOnSep, if_neg hc] at h
      cases hs : splitOnSep sep rest with
      | nil => exact absurd hs (splitOnSep_ne_nil sep rest)
      | cons p ps =>
        rw [hs] at h
        injection h with h1 h2
        subst h2
        have hp := ih hs
        rw [← h1, hp]

theorem splitStrip_ne_nil (l : Str) : splitStrip l ≠ [] := by
  unfold splitStrip
  intro h
  rw [List.map_eq_nil_iff] at h
  exact splitOnSep_ne_nil ',' _ h

theorem splitStrip_eq_blank_iff (l : Str) : splitStrip l = [[]] ↔ stripChars l = [] := by
  constructor
  · intro h
    unfold splitStrip at h
    cases hX : splitOnComma (stripChars l) with
    | nil => exact absurd hX (splitOnSep_ne_nil ',' _)
    | cons p ps =>
      rw [hX, List.map_cons] at h
      injection h with h1 h2
      rw [List.map_eq_nil_iff] at h2
      subst h2
      have hp : p = stripChars l := splitOnSep_eq_single hX
      rw [hp] at h1
      rwa [stripChars_idem] at h1
  · intro h
    unfold splitStrip
    rw [h]
    rfl

theorem loadExpenseRow_eq_core (rules : List (Str × List Str)) (l : Str) :
    loadExpenseRow rules l =
      (if splitStrip l = [[]] then RowOutcome.blank
       else if (splitStrip l).length < 3 then RowOutcome.skippedRow
       else
         match safe_float ((splitStrip l).getD 2 []),
             extract_month ((splitStrip l).getD 0 []) with
         | some amount_val, some month_val =>
           RowOutcome.loadedRow ⟨(splitStrip l).getD 0 [], (splitStrip l).getD 1 [],
             amount_val, categorize_expense rules (some ((splitStrip l).getD 1 [])),
             month_val⟩
         | _, _ => RowOutcome.skippedRow) := by
  unfold loadExpenseRow
  by_cases he : (stripChars l).isEmpty = true
  · rw [if_pos he, if_pos ((splitStrip_eq_blank_iff l).mpr (by simpa using he))]
  · rw [if_neg he]
    rw [if_neg (show ¬splitStrip l = [[]] from
      fun hb => he (by simp [(splitStrip_eq_blank_iff l).mp hb]))]
    rfl

theorem getD_take_eq : ∀ (p : List Str) (n i : Nat), i < n →
    (p.take n).getD i [] = p.getD i [] := by
  intro p
  induction p with
  | nil => intro n i _; simp
  | cons x t ih =>
    intro n i hi
    cases n with
    | zero => omega
    | succ m =>
      cases i with
      | zero => simp [List.take_succ_cons]
      | succ j =>
        rw [List.take_succ_cons, List.getD_cons_succ, List.getD_cons_succ]
        exact ih m j (by omega)

theorem getD_zero_of_take_three {p q : List Str} (h : p.take 3 = q.take 3)
    (hp : p ≠ []) (hq : q ≠ []) : p.getD 0 [] = q.getD 0 [] := by
  cases p with
  | nil => exact absurd rfl hp
  | cons a ps =>
    cases q with
    | nil => exact absurd rfl hq
    | cons b qs =>
      rw [List.take_succ_cons, List.take_succ_cons] at h
      have h1 : a = b := by
        injection h
      simp [h1]

theorem length_lt_three_iff_of_take {p q : List Str} (h : p.take 3 = q.take 3) :
    p.length < 3 ↔ q.length < 3 := by
  have hl := congrArg List.length h
  rw [List.length_take, List.length_take] at hl
  omega

theorem eq_of_take_three_of_lt {p q : List Str} (h : p.take 3 = q.take 3)
    (hp : p.length < 3) : p = q := by
  have hq : q.length < 3 := (length_lt_three_iff_of_take h).mp hp
  rw [List.take_of_length_le (by omega), List.take_of_length_le (by omega)] at h
  exact h

theorem blank_of_take_three {p q : List Str} (h : p.take 3 = q.take 3) (hq : q ≠ [])
    (hp : p = [[]]) : q = [[]] := by
  subst hp
  cases q with
  | nil => exact absurd rfl hq
  | cons b qs =>
    rw [List.take_succ_cons] at h
    have h' : ([] : Str) :: ([] : List Str).take 2 = b :: qs.take 2 := h
    injection h' with h1 h2
    have h3 : qs = [] := by
      have hl := congrArg List.length h2.symm
      rw [List.length_take] at hl
      simp only [List.take_nil, List.length_nil] at hl
      exact List.eq_nil_of_length_eq_zero (by omega)
    rw [h3, ← h1]

theorem sameFirstThree_symm {l1 l2 : Str} (h : sameFirstThree l1 l2) :
    sameFirstThree l2 l1 := Eq.symm h

theorem loadExpenseRow_congr (rules : List (Str × List Str)) {l1 l2 : Str}
    (h : sameFirstThree l1 l2) : loadExpenseRow rules l1 = loadExpenseRow rules l2 := by
  rw [loadExpenseRow_eq_core, loadExpenseRow_eq_core]
  have hne1 := splitStrip_ne_nil l1
  have hne2 := splitStrip_ne_nil l2
  by_cases hb1 : splitStrip l1 = [[]]
  · rw [if_pos hb1, if_pos (blank_of_take_three h hne2 hb1)]
  · have hb2 : ¬splitStrip l2 = [[]] :=
      fun hq => hb1 (blank_of_take_three (sameFirstThree_symm h) hne1 hq)
    rw [if_neg hb1, if_neg hb2]
    by_cases hl1 : (splitStrip l1).length < 3
    · rw [eq_of_take_three_of_lt h hl1]
    · have hl2 : ¬(splitStrip l2).length < 3 :=
        fun hl => hl1 ((length_lt_three_iff_of_take h).mpr hl)
      rw [if_neg hl1, if_neg hl2]
      have h0 := getD_zero_of_take_three h hne1 hne2
      have h1 : (splitStrip l1).getD 1 [] = (splitStrip l2).getD 1 [] := by
        rw [← getD_take_eq (splitStrip l1) 3 1 (by omega), h,
          getD_take_eq (splitStrip l2) 3 1 (by omega)]
      have h2 : (splitStrip l1).getD 2 [] = (splitStrip l2).getD 2 [] := by
        rw [← getD_take_eq (splitStrip l1) 3 2 (by omega), h,
          getD_take_eq (splitStrip l2) 3 2 (by omega)]
      rw [h0, h1, h2]

theorem field0_no_dash_of_header {l : Str} (h : isExpenseHeader l = true) :
    '-' ∉ (splitStrip l).getD 0 [] := by
  unfold isExpenseHeader at h
  simp only [Bool.and_eq_true] at h
  obtain ⟨t, ht⟩ := pyStartswith_append h.1.1
  have hf0 : (splitStrip l).getD 0 [] =
      stripChars ((stripChars l).takeWhile (fun c => c != ',')) := by
    unfold splitStrip
    cases hX : splitOnComma (stripChars l) with
    | nil => exact absurd hX (splitOnSep_ne_nil ',' _)
    | cons p ps =>
      have hhead := splitOnSep_headI ',' (stripChars l)
      have hX' : splitOnSep ',' (stripChars l) = p :: ps := hX
      rw [hX'] at hhead
      simp only [List.headI] at hhead
      rw [List.map_cons, List.getD_cons_zero, hhead]
  rw [hf0]
  intro hmem
  have hmem' : '-' ∈ (stripChars l).takeWhile (fun c => c != ',') :=
    mem_of_mem_stripChars hmem
  have hnorm : removeSpaces (lowerChars (stripChars l)) =
      removeSpaces (lowerChars ((stripChars l).takeWhile (fun c => c != ','))) ++
        removeSpaces (lowerChars ((stripChars l).dropWhile (fun c => c != ','))) := by
    unfold removeSpaces lowerChars
    rw [← List.filter_append, ← List.map_append, List.takeWhile_append_dropWhile]
  have hu : ',' ∉ removeSpaces
      (lowerChars ((stripChars l).takeWhile (fun c => c != ','))) := by
    intro hc
    unfold removeSpaces lowerChars at hc
    rw [List.mem_filter] at hc
    obtain ⟨hc1, -⟩ := hc
    rw [List.mem_map] at hc1
    obtain ⟨y, hy, hyl⟩ := hc1
    have hyne : y ≠ ',' := by simpa using List.mem_takeWhile_imp hy
    exact toLower_ne_comma hyne hyl
  have hdash : '-' ∈ removeSpaces
      (lowerChars ((stripChars l).takeWhile (fun c => c != ','))) := by
    unfold removeSpaces lowerChars
    rw [List.mem_filter]
    refine ⟨?_, by decide⟩
    rw [List.mem_map]
    exact ⟨'-', hmem', by decide⟩
  cases hdw : (stripChars l).dropWhile (fun c => c != ',') with
  | nil =>
    have hcomma : ',' ∈ removeSpaces (lowerChars (stripChars l)) := by
      rw [ht]
      simp
    rw [hnorm, hdw] at hcomma
    simp only [lowerChars, removeSpaces, List.map_nil, List.filter_nil,
      List.append_nil] at hcomma
    exact hu (by simpa [removeSpaces, lowerChars] using hcomma)
  | cons c rest =>
    have hc : c = ',' := by
      have hh := head?_dropWhile_not (p := fun c => c != ',') (l := stripChars l)
        (c := c) (by rw [hdw]; rfl)
      simpa using hh
    subst hc
    have hv : removeSpaces (lowerChars (',' :: rest)) =
        ',' :: removeSpaces (lowerChars rest) := by
      unfold removeSpaces lowerChars
      rw [List.map_cons, show Char.toLower ',' = ',' from by decide,
        List.filter_cons_of_pos (by decide)]
    have heq : removeSpaces (lowerChars ((stripChars l).takeWhile (fun c => c != ','))) ++
        ',' :: removeSpaces (lowerChars rest) = "date".data ++ ',' :: t := by
      rw [← hv, ← hdw, ← hnorm, ht]
      rfl
    have hudate := append_cons_comma_inj hu (by decide) heq
    rw [hudate] at hdash
    exact absurd hdash (by decide)

theorem extract_month_none_of_no_dash {s : Str} (h : '-' ∉ s) : extract_month s = none := by
  rw [extract_month_eq, if_neg]
  rintro ⟨-, hd, -, -⟩
  exact h (mem_of_mem_stripChars (List.getElem?_mem hd))

theorem loadExpenseRow_of_header (rules : List (Str × List Str)) {l l' : Str}
    (hh : isExpenseHeader l = true) (hs : sameFirstThree l' l) (r : ExpenseRecord) :
    loadExpenseRow rules l' ≠ .loadedRow r := by
  rw [loadExpenseRow_eq_core]
  by_cases hb : splitStrip l' = [[]]
  · rw [if_pos hb]
    simp
  · rw [if_neg hb]
    by_cases h3 : (splitStrip l').length < 3
    · rw [if_pos h3]
      simp
    · rw [if_neg h3]
      have h0 : (splitStrip l').getD 0 [] = (splitStrip l).getD 0 [] :=
        getD_zero_of_take_three hs (splitStrip_ne_nil l') (splitStrip_ne_nil l)
      rw [h0, extract_month_none_of_no_dash (field0_no_dash_of_header hh)]
      cases hsf : safe_float ((splitStrip l').getD 2 []) <;> simp

/-- Claim C10: the category column of an expense CSV is ignored — every
loaded record's category is recomputed by the classifier from the
description, and two files agreeing on their first three columns (in
particular, differing only in the category column) load to identical
in-memory records. -/
theorem claim_C10 :
    (∀ (rules : List (Str × List Str)) (lines : List Str),
      ∀ r ∈ (load_expenses_csv rules lines).records,
        r.category = categorize_expense rules (some r.desc)) ∧
    (∀ (rules : List (Str × List Str)) (lines1 lines2 : List Str),
      List.Forall₂ sameFirstThree lines1 lines2 →
      (load_expenses_csv rules lines1).records = (load_expenses_csv rules lines2).records) := by
  constructor
  · intro rules lines r hr
    cases lines with
    | nil => simp [load_expenses_csv] at hr
    | cons l0 rest =>
      unfold load_expenses_csv at hr
      exact loadFold_records_prop rules _
        (fun line r' hrow => (loadExpenseRow_loaded hrow).2.1) _ _
        (fun _ hmem => absurd hmem (List.not_mem_nil _)) r hr
  · intro rules lines1 lines2 h
    cases h with
    | nil => rfl
    | @cons l1 l2 ls1 ls2 h0 hrest =>
      have hr : ∀ acc, ls1.foldl (loadStep rules) acc = ls2.foldl (loadStep rules) acc :=
        loadFold_congr rules
          (List.Forall₂.imp (fun a b hx => loadExpenseRow_congr rules hx) hrest)
      unfold load_expenses_csv
      dsimp only
      by_cases hh1 : isExpenseHeader l1 = true
      · by_cases hh2 : isExpenseHeader l2 = true
        · rw [if_pos hh1, if_pos hh2, hr]
        · rw [if_pos hh1, if_neg hh2, List.foldl_cons]
          have hrec : (loadStep rules ⟨[], 0, 0⟩ l2).records = [] := by
            unfold loadStep
            cases hrow : loadExpenseRow rules l2 with
            | blank => rfl
            | skippedRow => rfl
            | loadedRow r0 =>
              exact absurd hrow
                (loadExpenseRow_of_header rules hh1 (sameFirstThree_symm h0) r0)
          rw [hr, loadFold_records_append rules ls2 (loadStep rules ⟨[], 0, 0⟩ l2), hrec,
            List.nil_append]
      · by_cases hh2 : isExpenseHeader l2 = true
        · rw [if_neg hh1, if_pos hh2, List.foldl_cons]
          have hrec : (loadStep rules ⟨[], 0, 0⟩ l1).records = [] := by
            unfold loadStep
            cases hrow : loadExpenseRow rules l1 with
            | blank => rfl
            | skippedRow => rfl
            | loadedRow r0 =>
              exact absurd hrow (loadExpenseRow_of_header rules hh2 h0 r0)
          rw [loadFold_records_append rules ls1 (loadStep rules ⟨[], 0, 0⟩ l1), hrec,
            List.nil_append, hr]
        · rw [if_neg hh1, if_neg hh2, List.foldl_cons, List.foldl_cons,
            show loadStep rules ⟨[], 0, 0⟩ l1 = loadStep rules ⟨[], 0, 0⟩ l2 by
              unfold loadStep
              rw [loadExpenseRow_congr rules h0],
            hr]

/-- Witness for claim C10: two concrete files differing only in their
category column load to the same records. -/
theorem claim_C10_witness :
    List.Forall₂ sameFirstThree c10_lines1 c10_lines2 ∧
      (load_expenses_csv CATEGORY_RULES c10_lines1).records =
        (load_expenses_csv CATEGORY_RULES c10_lines2).records := by
  have hf : List.Forall₂ sameFirstThree c10_lines1 c10_lines2 :=
    List.Forall₂.cons (by decide) (List.Forall₂.cons (by decide)
      (List.Forall₂.cons (by decide) List.Forall₂.nil))
  exact ⟨hf, claim_C10.2 CATEGORY_RULES c10_lines1 c10_lines2 hf⟩

end BudgetTracker
